import Mathlib

/-!
Shallow embedding of `src/index.js` (the `to-ico` package): a Windows ICO
encoder.  Node `Buffer`s are modelled as `List Nat` (one entry per byte).
Node buffer accessors throw a `RangeError` when the offset is out of bounds
and the write helpers additionally range-check the written value, so every
read/write is modelled in the `Option` monad (`none` = the JS call throws).
JS `for` loops over an index that advances by a fixed positive stride are
embedded as structural recursion on the number of remaining iterations, with
the running positions passed explicitly.
-/

namespace ToIco

/-- Node `buf.readUInt8(pos)`: the byte at `pos`, throwing when out of range. -/
def readU8 (buf : List Nat) (pos : Nat) : Option Nat := buf[pos]?

/-- Node `buf.writeUInt8(v, pos)`: throws unless `0 ≤ v ≤ 255` and `pos` is in
bounds; otherwise stores the byte. -/
def writeU8v (buf : List Nat) (v pos : Nat) : Option (List Nat) :=
  if v ≤ 255 ∧ pos < buf.length then some (buf.set pos v) else none

/-- Node `buf.writeUInt16LE(v, pos)`: two little-endian bytes, with Node's
range checks on the value and the offsets. -/
def writeU16LE (buf : List Nat) (v pos : Nat) : Option (List Nat) :=
  if v ≤ 65535 ∧ pos + 1 < buf.length then
    some ((buf.set pos (v % 256)).set (pos + 1) (v / 256))
  else none

/-- Node `buf.writeUInt32LE(v, pos)`: four little-endian bytes, with Node's
range checks. -/
def writeU32LE (buf : List Nat) (v pos : Nat) : Option (List Nat) :=
  if v < 2 ^ 32 ∧ pos + 3 < buf.length then
    some (((((buf.set pos (v % 256)).set (pos + 1) (v / 256 % 256)).set
      (pos + 2) (v / 2 ^ 16 % 256)).set (pos + 3) (v / 2 ^ 24)))
  else none

/-- Node `buf.writeInt32LE(v, pos)`.  The source only ever passes
non-negative values (widths, doubled heights and zeros), so the model takes a
`Nat` and keeps Node's upper range check `v ≤ 2^31 - 1`. -/
def writeI32LE (buf : List Nat) (v pos : Nat) : Option (List Nat) :=
  if v ≤ 2 ^ 31 - 1 ∧ pos + 3 < buf.length then
    some (((((buf.set pos (v % 256)).set (pos + 1) (v / 256 % 256)).set
      (pos + 2) (v / 2 ^ 16 % 256)).set (pos + 3) (v / 2 ^ 24)))
  else none

/-- Little-endian read-back of a 16-bit field, used to state what a writer
recorded. -/
def readU16LEv (buf : List Nat) (pos : Nat) : Nat :=
  buf.getD pos 0 + 256 * buf.getD (pos + 1) 0

/-- Little-endian read-back of a 32-bit field, used to state what a writer
recorded. -/
def readU32LEv (buf : List Nat) (pos : Nat) : Nat :=
  buf.getD pos 0 + 256 * buf.getD (pos + 1) 0 + 2 ^ 16 * buf.getD (pos + 2) 0 +
    2 ^ 24 * buf.getD (pos + 3) 0

/-- `bufferAlloc(n)`: a zero-filled buffer. -/
def bufferAlloc (n : Nat) : List Nat := List.replicate n 0

/-- The decoded image record produced by the external `parse-png`
collaborator: `{width, height, bpp, data}` with `data` the raw RGBA (or RGB)
top-down row-major pixel bytes. -/
structure Png where
  width : Nat
  height : Nat
  bpp : Nat
  data : List Nat
deriving Repr, DecidableEq

/-- The `constants` table of `src/index.js` lines 8-13. -/
structure Constants where
  bitmapSize : Nat
  colorMode : Nat
  directorySize : Nat
  headerSize : Nat

/-- `constants` of `src/index.js`. -/
def constants : Constants :=
  { bitmapSize := 40, colorMode := 0, directorySize := 16, headerSize := 6 }

/-- `createHeader` (`src/index.js` lines 15-23). -/
def createHeader (n : Nat) : Option (List Nat) := do
  let buf := bufferAlloc constants.headerSize
  let buf ← writeU16LE buf 0 0
  let buf ← writeU16LE buf 1 2
  let buf ← writeU16LE buf n 4
  return buf

/-- `getMaskScanWidth` (`src/index.js` line 90): `((width + 31) >> 5) << 2`. -/
def getMaskScanWidth (width : Nat) : Nat := ((width + 31) >>> 5) <<< 2

/-- `createDirectory` (`src/index.js` lines 25-43); returns `{buf, size}`. -/
def createDirectory (data : Png) (offset : Nat) : Option (List Nat × Nat) := do
  let buf := bufferAlloc constants.directorySize
  let mask := if data.bpp = 4 then getMaskScanWidth data.width * data.height else 0
  let size := data.data.length + constants.bitmapSize + mask
  let width := if data.width = 256 then 0 else data.width
  let height := if data.height = 256 then 0 else data.height
  let bpp := data.bpp * 8
  let buf ← writeU8v buf width 0
  let buf ← writeU8v buf height 1
  let buf ← writeU8v buf 0 2
  let buf ← writeU8v buf 0 3
  let buf ← writeU16LE buf 1 4
  let buf ← writeU16LE buf bpp 6
  let buf ← writeU32LE buf size 8
  let buf ← writeU32LE buf offset 12
  return (buf, size)

/-- `createBitmap` (`src/index.js` lines 45-61): the 40-byte
BITMAPINFOHEADER. -/
def createBitmap (data : Png) (compression : Nat) : Option (List Nat) := do
  let buf := bufferAlloc constants.bitmapSize
  let buf ← writeU32LE buf constants.bitmapSize 0
  let buf ← writeI32LE buf data.width 4
  let buf ← writeI32LE buf (data.height * 2) 8
  let buf ← writeU16LE buf 1 12
  let buf ← writeU16LE buf (data.bpp * 8) 14
  let buf ← writeU32LE buf compression 16
  let buf ← writeU32LE buf data.data.length 20
  let buf ← writeI32LE buf 0 24
  let buf ← writeI32LE buf 0 28
  let buf ← writeU32LE buf 0 32
  let buf ← writeU32LE buf 0 36
  return buf

/-- One iteration of `createDib`'s inner loop body (`src/index.js` lines
71-83): read the four channel bytes at the source position and write them
B,G,R,A at the destination position.  Note the source reads `pos + 3`
unconditionally, also when `bpp = 3`. -/
def dibPixel (data buf : List Nat) (pos wpos : Nat) : Option (List Nat) := do
  let r ← readU8 data pos
  let g ← readU8 data (pos + 1)
  let b ← readU8 data (pos + 2)
  let a ← readU8 data (pos + 3)
  let buf ← writeU8v buf b wpos
  let buf ← writeU8v buf g (wpos + 1)
  let buf ← writeU8v buf r (wpos + 2)
  let buf ← writeU8v buf a (wpos + 3)
  return buf

/-- The inner `for (col = 0; col < cols; col += bpp)` loop of `createDib`,
as recursion on the number `n` of remaining pixels of the row; `ci` is the
pixel index already reached, so `col = ci * bpp`. -/
def createDibCols (data : List Nat) (bpp row endRow : Nat) :
    Nat → Nat → List Nat → Option (List Nat)
  | 0, _, buf => some buf
  | n + 1, ci, buf => do
    let buf ← dibPixel data buf (row + ci * bpp) ((endRow - row) + ci * bpp)
    createDibCols data bpp row endRow n (ci + 1) buf

/-- The outer `for (row = 0; row < rows; row += cols)` loop of `createDib`,
as recursion on the number `n` of remaining rows; `ri` is the row index
already reached, so `row = ri * cols`. -/
def createDibRows (data : List Nat) (width bpp cols endRow : Nat) :
    Nat → Nat → List Nat → Option (List Nat)
  | 0, _, buf => some buf
  | n + 1, ri, buf => do
    let buf ← createDibCols data bpp (ri * cols) endRow width 0 buf
    createDibRows data width bpp cols endRow n (ri + 1) buf

/-- `createDib` (`src/index.js` lines 63-88): flip the rows bottom-up and
swap the R and B channel of every pixel, into a fresh buffer of the same
length as the input. -/
def createDib (data : List Nat) (width height bpp : Nat) : Option (List Nat) :=
  let cols := width * bpp
  let rows := height * cols
  let buf := bufferAlloc data.length
  createDibRows data width bpp cols (rows - cols) height 0 buf

/-- The eight-term bit-or building one full mask byte (`src/index.js` lines
100-107). -/
def maskGroupByte (a0 a1 a2 a3 a4 a5 a6 a7 t : Nat) : Nat :=
  (if a0 ≥ t then 0 else 0x80) ||| (if a1 ≥ t then 0 else 0x40) |||
  (if a2 ≥ t then 0 else 0x20) ||| (if a3 ≥ t then 0 else 0x10) |||
  (if a4 ≥ t then 0 else 0x8) ||| (if a5 ≥ t then 0 else 0x4) |||
  (if a6 ≥ t then 0 else 0x2) ||| (if a7 ≥ t then 0 else 0x1)

/-- The full-group loop `for (x = 0; x < width - 7; x += 8, srcPos += 32)` of
`createMask`, as recursion on the number `n` of remaining 8-pixel groups
(the JS loop runs `⌊width / 8⌋` times).  Returns the buffer together with
the advanced `srcPos` and `dstPos`. -/
def maskGroups (data : List Nat) (t : Nat) :
    Nat → Nat → Nat → List Nat → Option (List Nat × Nat × Nat)
  | 0, srcPos, dstPos, buf => some (buf, srcPos, dstPos)
  | n + 1, srcPos, dstPos, buf => do
    let a0 ← readU8 data srcPos
    let a1 ← readU8 data (srcPos + 4)
    let a2 ← readU8 data (srcPos + 8)
    let a3 ← readU8 data (srcPos + 12)
    let a4 ← readU8 data (srcPos + 16)
    let a5 ← readU8 data (srcPos + 20)
    let a6 ← readU8 data (srcPos + 24)
    let a7 ← readU8 data (srcPos + 28)
    let buf ← writeU8v buf (maskGroupByte a0 a1 a2 a3 a4 a5 a6 a7 t) dstPos
    maskGroups data t n (srcPos + 32) (dstPos + 1) buf

/-- The leftover-byte loop `for (x = 0; x < width % 8; ++x, srcPos += 4)` of
`createMask` (`src/index.js` lines 114-116), accumulating
`mask |= alpha >= t ? 0 : 2^(7-x)`; returns the byte and the advanced
`srcPos`. -/
def maskTail (data : List Nat) (t : Nat) :
    Nat → Nat → Nat → Nat → Option (Nat × Nat)
  | 0, srcPos, _, m => some (m, srcPos)
  | n + 1, srcPos, x, m => do
    let a ← readU8 data srcPos
    maskTail data t n (srcPos + 4) (x + 1) (m ||| (if a ≥ t then 0 else 2 ^ (7 - x)))

/-- One iteration of `createMask`'s row loop: the full 8-pixel groups, then,
when `width % 8 ≠ 0`, the leftover byte.  Returns the buffer and the advanced
`srcPos`. -/
def maskRow (data : List Nat) (t width scanWidth y srcPos : Nat)
    (buf : List Nat) : Option (List Nat × Nat) := do
  let r ← maskGroups data t (width / 8) srcPos (y * scanWidth) buf
  let (buf, srcPos, dstPos) := r
  if width % 8 = 0 then
    return (buf, srcPos)
  else
    let r ← maskTail data t (width % 8) srcPos 0 0
    let buf ← writeU8v buf r.1 dstPos
    return (buf, r.2)

/-- The `for (y = 0, srcPos = 3; y < height; ++y)` loop of `createMask`, as
recursion on the number `n` of remaining rows. -/
def maskRowsLoop (data : List Nat) (t width scanWidth : Nat) :
    Nat → Nat → Nat → List Nat → Option (List Nat)
  | 0, _, _, buf => some buf
  | n + 1, y, srcPos, buf => do
    let r ← maskRow data t width scanWidth y srcPos buf
    maskRowsLoop data t width scanWidth n (y + 1) r.2 r.1

/-- `createMask` (`src/index.js` lines 92-123): pack the alpha channel of a
transposed BGRA buffer into a 1-bit mask, one row at a time. -/
def createMask (data : List Nat) (width height threshold : Nat) : Option (List Nat) :=
  let scanWidth := getMaskScanWidth width
  maskRowsLoop data threshold width scanWidth height 0 3
    (bufferAlloc (scanWidth * height))

/-- The directory loop of `generateIco` (`src/index.js` lines 133-138):
build one directory entry per image, advancing the running block offset by
each entry's computed size. -/
def icoDirLoop : List Png → Nat → Option (List (List Nat))
  | [], _ => some []
  | x :: xs, offset => do
    let dir ← createDirectory x offset
    let rest ← icoDirLoop xs (offset + dir.2)
    return dir.1 :: rest

/-- The block loop of `generateIco` (`src/index.js` lines 140-146): for each
image push the bitmap info header, the transposed pixel array, and (for
32-bit images) the mask built with the literal threshold `1`; 24-bit images
push a zero-length mask buffer. -/
def icoBlockLoop : List Png → Option (List (List Nat))
  | [] => some []
  | x :: xs => do
    let header ← createBitmap x constants.colorMode
    let dib ← createDib x.data x.width x.height x.bpp
    let mask ← if x.bpp = 4 then createMask dib x.width x.height 1
               else some (bufferAlloc 0)
    let rest ← icoBlockLoop xs
    return header :: dib :: mask :: rest

/-- Node `Buffer.concat(arr, len)`: concatenate, then truncate or zero-fill
to exactly `len` bytes. -/
def bufferConcat (arr : List (List Nat)) (len : Nat) : List Nat :=
  (arr.flatten ++ List.replicate len 0).take len

/-- The body of `generateIco` (`src/index.js` lines 125-150) after the
external `parse-png` collaborator has produced the decoded images: header,
directory entries in input order, then the image blocks in the same order,
concatenated to the running total length (the code's `len` accumulates the
length of every buffer it pushes, so it equals the sum below). -/
def generateIco (data : List Png) : Option (List Nat) := do
  let header ← createHeader data.length
  let dirs ← icoDirLoop data (constants.headerSize + constants.directorySize * data.length)
  let blocks ← icoBlockLoop data
  let arr := header :: (dirs ++ blocks)
  let len := (arr.map List.length).sum
  return bufferConcat arr len

/-- The `reduce((a, b) => a.width > b.width ? a : b, {})` of `resizeImages`
(`src/index.js` line 163).  The initial `{}` has no `width`, and in JS
`undefined > n` is `false`, so the accumulator is modelled as an `Option`:
`none` compares below everything. -/
def pickWidest {α : Type} (items : List (α × Nat)) : Option (α × Nat) :=
  items.foldl
    (fun a b => match a with
      | none => some b
      | some a => if a.2 > b.2 then some a else some b)
    none

/-- `resizeImages` (`src/index.js` lines 152-169).  The external
collaborators `image-size` and `resize-img` are abstracted as the parameters
`sizeOf` and `resizeFn` (the height returned by `image-size` is never read
afterwards, so only the width is kept).  When the input list is empty the
widest element is the initial `{}`, every `x <= undefined` filter test is
false, and the result is empty. -/
def resizeImages {α β : Type} (sizeOf : α → Nat) (resizeFn : α → Nat → β)
    (data : List α) (sizes : List Nat) : List β :=
  match pickWidest (data.map fun x => (x, sizeOf x)) with
  | none => []
  | some best => (sizes.filter fun x => x ≤ best.2).map fun x => resizeFn best.1 x

/-- The option object consumed by `module.exports` (`src/index.js` lines
171-184) after `Object.assign` has applied the defaults.  The code reads
only `resize` and `sizes`; `maskThreshold` models a key the caller may pass
(the spec's claimed configuration surface) which `Object.assign` keeps on
the merged object but which no line of the source ever reads. -/
structure Opts where
  resize : Bool
  sizes : List Nat
  maskThreshold : Option Nat

/-- The default `sizes` list of `module.exports`. -/
def defaultSizes : List Nat := [16, 24, 32, 48, 64, 128, 256]

/-- `generateIco` including its first step `Promise.all(data.map(parsePng))`;
the external `parse-png` collaborator is the parameter `parse`. -/
def generateIcoRaw {α : Type} (parse : α → Png) (data : List α) : Option (List Nat) :=
  generateIco (data.map parse)

/-- `module.exports` (`src/index.js` lines 171-184): resize first when
`opts.resize` is set, then encode. -/
def toIco {α : Type} (parse : α → Png) (sizeOf : α → Nat)
    (resizeFn : α → Nat → α) (input : List α) (opts : Opts) : Option (List Nat) :=
  if opts.resize then
    generateIcoRaw parse (resizeImages sizeOf resizeFn input opts.sizes)
  else
    generateIcoRaw parse input

/-! ## Generic buffer lemmas -/

theorem getD_set (l : List Nat) (i j v : Nat) :
    (l.set i v).getD j 0 = if i = j ∧ j < l.length then v else l.getD j 0 := by
  rw [List.getD_eq_getElem?_getD, List.getD_eq_getElem?_getD, List.getElem?_set]
  by_cases hij : i = j
  · subst hij
    by_cases hl : i < l.length
    · simp [hl]
    · simp [hl, List.getElem?_eq_none (by omega : l.length ≤ i)]
  · simp [hij]

theorem writeU8v_some {buf : List Nat} {v pos : Nat} (hv : v ≤ 255)
    (hp : pos < buf.length) : writeU8v buf v pos = some (buf.set pos v) := by
  simp [writeU8v, hv, hp]

theorem writeU8v_eq_some {buf out : List Nat} {v pos : Nat}
    (h : writeU8v buf v pos = some out) :
    v ≤ 255 ∧ pos < buf.length ∧ out = buf.set pos v := by
  by_cases hc : v ≤ 255 ∧ pos < buf.length
  · rw [writeU8v, if_pos hc] at h
    exact ⟨hc.1, hc.2, (Option.some.injEq _ _ ▸ h).symm⟩
  · rw [writeU8v, if_neg hc] at h
    exact absurd h (by simp)

theorem writeU16LE_some {buf : List Nat} {v pos : Nat} (hv : v ≤ 65535)
    (hp : pos + 1 < buf.length) :
    writeU16LE buf v pos = some ((buf.set pos (v % 256)).set (pos + 1) (v / 256)) := by
  simp [writeU16LE, hv, hp]

theorem writeU16LE_eq_some {buf out : List Nat} {v pos : Nat}
    (h : writeU16LE buf v pos = some out) :
    v ≤ 65535 ∧ pos + 1 < buf.length ∧
      out = (buf.set pos (v % 256)).set (pos + 1) (v / 256) := by
  by_cases hc : v ≤ 65535 ∧ pos + 1 < buf.length
  · rw [writeU16LE, if_pos hc] at h
    exact ⟨hc.1, hc.2, (Option.some.injEq _ _ ▸ h).symm⟩
  · rw [writeU16LE, if_neg hc] at h
    exact absurd h (by simp)

theorem writeU32LE_some {buf : List Nat} {v pos : Nat} (hv : v < 2 ^ 32)
    (hp : pos + 3 < buf.length) :
    writeU32LE buf v pos = some (((((buf.set pos (v % 256)).set (pos + 1)
      (v / 256 % 256)).set (pos + 2) (v / 2 ^ 16 % 256)).set (pos + 3)
      (v / 2 ^ 24))) := by
  simp only [writeU32LE]
  rw [if_pos ⟨hv, hp⟩]

theorem writeU32LE_eq_some {buf out : List Nat} {v pos : Nat}
    (h : writeU32LE buf v pos = some out) :
    v < 2 ^ 32 ∧ pos + 3 < buf.length ∧
      out = ((((buf.set pos (v % 256)).set (pos + 1) (v / 256 % 256)).set
        (pos + 2) (v / 2 ^ 16 % 256)).set (pos + 3) (v / 2 ^ 24)) := by
  by_cases hc : v < 2 ^ 32 ∧ pos + 3 < buf.length
  · rw [writeU32LE, if_pos hc] at h
    exact ⟨hc.1, hc.2, (Option.some.injEq _ _ ▸ h).symm⟩
  · rw [writeU32LE, if_neg hc] at h
    exact absurd h (by simp)

theorem writeI32LE_some {buf : List Nat} {v pos : Nat} (hv : v ≤ 2 ^ 31 - 1)
    (hp : pos + 3 < buf.length) :
    writeI32LE buf v pos = some (((((buf.set pos (v % 256)).set (pos + 1)
      (v / 256 % 256)).set (pos + 2) (v / 2 ^ 16 % 256)).set (pos + 3)
      (v / 2 ^ 24))) := by
  simp only [writeI32LE]
  rw [if_pos ⟨hv, hp⟩]

theorem writeI32LE_eq_some {buf out : List Nat} {v pos : Nat}
    (h : writeI32LE buf v pos = some out) :
    v ≤ 2 ^ 31 - 1 ∧ pos + 3 < buf.length ∧
      out = ((((buf.set pos (v % 256)).set (pos + 1) (v / 256 % 256)).set
        (pos + 2) (v / 2 ^ 16 % 256)).set (pos + 3) (v / 2 ^ 24)) := by
  by_cases hc : v ≤ 2 ^ 31 - 1 ∧ pos + 3 < buf.length
  · rw [writeI32LE, if_pos hc] at h
    exact ⟨hc.1, hc.2, (Option.some.injEq _ _ ▸ h).symm⟩
  · rw [writeI32LE, if_neg hc] at h
    exact absurd h (by simp)

theorem readU8_some {buf : List Nat} {pos : Nat} (hp : pos < buf.length) :
    readU8 buf pos = some (buf.getD pos 0) := by
  rw [readU8, List.getElem?_eq_getElem hp, List.getD_eq_getElem buf 0 hp]

theorem readU8_eq_some {buf : List Nat} {pos v : Nat}
    (h : readU8 buf pos = some v) : pos < buf.length ∧ v = buf.getD pos 0 := by
  have hp : pos < buf.length := by
    by_contra hc
    rw [readU8, List.getElem?_eq_none (by omega)] at h
    exact absurd h (by simp)
  refine ⟨hp, ?_⟩
  rw [readU8_some hp] at h
  exact (Option.some.injEq _ _ ▸ h).symm

/-! ## Option bind helpers -/

theorem some_bind {a : Type} {b : Type} (x : a) (f : a → Option b) :
    (some x >>= f) = f x := rfl

theorem optBind_eq_some {a : Type} {b : Type} {x : Option a} {f : a → Option b}
    {v : b} : (x >>= f) = some v ↔ ∃ y, x = some y ∧ f y = some v := by
  cases x <;> simp

/-! ## Derived layout quantities -/

/-- The mask byte length charged for an image, as computed both by
`createDirectory` (line 27) and by the block loop (line 143): for 32-bit
images `getMaskScanWidth(width) * height`, otherwise `0`. -/
def maskLen (x : Png) : Nat :=
  if x.bpp = 4 then getMaskScanWidth x.width * x.height else 0

/-- The six header bytes `createHeader` produces for an image count `n`. -/
def headerBytes (n : Nat) : List Nat := [0, 0, 1, 0, n % 256, n / 256]

theorem getMaskScanWidth_eq (w : Nat) : getMaskScanWidth w = (w + 31) / 32 * 4 := by
  simp [getMaskScanWidth, Nat.shiftLeft_eq, Nat.shiftRight_eq_div_pow]

/-! ## createHeader -/

theorem createHeader_some {n : Nat} (h : n ≤ 65535) :
    createHeader n = some (headerBytes n) := by
  simp only [createHeader, bufferAlloc, constants]
  rw [writeU16LE_some (by norm_num) (by norm_num)]
  simp only [some_bind]
  rw [writeU16LE_some (by norm_num) (by simp)]
  simp only [some_bind]
  rw [writeU16LE_some h (by simp)]
  simp only [some_bind]
  rfl

theorem createHeader_eq_some {n : Nat} {out : List Nat}
    (h : createHeader n = some out) : n ≤ 65535 ∧ out = headerBytes n := by
  simp only [createHeader, bufferAlloc, constants] at h
  rw [writeU16LE_some (by norm_num) (by norm_num)] at h
  simp only [some_bind] at h
  rw [writeU16LE_some (by norm_num) (by simp)] at h
  simp only [some_bind] at h
  obtain ⟨b, hb, hout⟩ := optBind_eq_some.mp h
  obtain ⟨hn, -, hbeq⟩ := writeU16LE_eq_some hb
  subst hbeq
  refine ⟨hn, ?_⟩
  have : out = ((([0, 0, 1, 0, 0, 0] : List Nat).set 4 (n % 256)).set 5 (n / 256)) := by
    simpa using hout.symm
  rw [this]
  rfl

/-! ## createDirectory -/

theorem createDirectory_some {x : Png} {offset : Nat}
    (hw : (if x.width = 256 then 0 else x.width) ≤ 255)
    (hh : (if x.height = 256 then 0 else x.height) ≤ 255)
    (hb : x.bpp * 8 ≤ 65535)
    (hs : x.data.length + constants.bitmapSize + maskLen x < 2 ^ 32)
    (ho : offset < 2 ^ 32) :
    createDirectory x offset =
      some ([if x.width = 256 then 0 else x.width,
             if x.height = 256 then 0 else x.height, 0, 0, 1, 0,
             x.bpp * 8 % 256, x.bpp * 8 / 256,
             (x.data.length + constants.bitmapSize + maskLen x) % 256,
             (x.data.length + constants.bitmapSize + maskLen x) / 256 % 256,
             (x.data.length + constants.bitmapSize + maskLen x) / 2 ^ 16 % 256,
             (x.data.length + constants.bitmapSize + maskLen x) / 2 ^ 24,
             offset % 256, offset / 256 % 256, offset / 2 ^ 16 % 256,
             offset / 2 ^ 24],
            x.data.length + constants.bitmapSize + maskLen x) := by
  simp only [maskLen] at hs
  simp only [createDirectory, bufferAlloc, maskLen]
  rw [writeU8v_some hw (by simp [constants])]
  simp only [some_bind]
  rw [writeU8v_some hh (by simp [constants])]
  simp only [some_bind]
  rw [writeU8v_some (by norm_num) (by simp [constants])]
  simp only [some_bind]
  rw [writeU8v_some (by norm_num) (by simp [constants])]
  simp only [some_bind]
  rw [writeU16LE_some (by norm_num) (by simp [constants])]
  simp only [some_bind]
  rw [writeU16LE_some hb (by simp [constants])]
  simp only [some_bind]
  rw [writeU32LE_some hs (by simp [constants])]
  simp only [some_bind]
  rw [writeU32LE_some ho (by simp [constants])]
  simp only [some_bind]
  rfl

theorem createDirectory_eq_some {x : Png} {offset : Nat} {r : List Nat × Nat}
    (h : createDirectory x offset = some r) :
    (if x.width = 256 then 0 else x.width) ≤ 255 ∧
    (if x.height = 256 then 0 else x.height) ≤ 255 ∧
    x.bpp * 8 ≤ 65535 ∧
    x.data.length + constants.bitmapSize + maskLen x < 2 ^ 32 ∧
    offset < 2 ^ 32 := by
  simp only [createDirectory, bufferAlloc] at h
  obtain ⟨b1, h1, h⟩ := optBind_eq_some.mp h
  obtain ⟨hv1, -, e1⟩ := writeU8v_eq_some h1
  obtain ⟨b2, h2, h⟩ := optBind_eq_some.mp h
  obtain ⟨hv2, -, e2⟩ := writeU8v_eq_some h2
  obtain ⟨b3, h3, h⟩ := optBind_eq_some.mp h
  obtain ⟨-, -, e3⟩ := writeU8v_eq_some h3
  obtain ⟨b4, h4, h⟩ := optBind_eq_some.mp h
  obtain ⟨-, -, e4⟩ := writeU8v_eq_some h4
  obtain ⟨b5, h5, h⟩ := optBind_eq_some.mp h
  obtain ⟨-, -, e5⟩ := writeU16LE_eq_some h5
  obtain ⟨b6, h6, h⟩ := optBind_eq_some.mp h
  obtain ⟨hv6, -, e6⟩ := writeU16LE_eq_some h6
  obtain ⟨b7, h7, h⟩ := optBind_eq_some.mp h
  obtain ⟨hv7, -, e7⟩ := writeU32LE_eq_some h7
  obtain ⟨b8, h8, h⟩ := optBind_eq_some.mp h
  obtain ⟨hv8, -, e8⟩ := writeU32LE_eq_some h8
  exact ⟨hv1, hv2, hv6, by simpa [maskLen] using hv7, hv8⟩

/-- C7: the width and height bytes of a directory entry are `0` exactly
when the corresponding dimension is `256`, and the literal dimension for
every value in `[1, 255]`.  Stated for every valid image (dimensions in
`[1, 256]`, bit depth 3 or 4, exact buffer length) and every in-range block
offset. -/
theorem createDirectory_dimension_bytes (x : Png) (offset : Nat)
    (hw1 : 1 ≤ x.width) (hw2 : x.width ≤ 256)
    (hh1 : 1 ≤ x.height) (hh2 : x.height ≤ 256)
    (hbpp : x.bpp = 3 ∨ x.bpp = 4)
    (hlen : x.data.length = x.width * x.height * x.bpp)
    (ho : offset < 2 ^ 32) :
    (createDirectory x offset).isSome = true ∧
    ((createDirectory x offset).getD ([], 0)).1.getD 0 0 =
      (if x.width = 256 then 0 else x.width) ∧
    ((createDirectory x offset).getD ([], 0)).1.getD 1 0 =
      (if x.height = 256 then 0 else x.height) := by
  have hmask : maskLen x ≤ 8448 := by
    rw [maskLen]
    split
    · have h1 : getMaskScanWidth x.width ≤ 33 := by
        rw [getMaskScanWidth_eq]; omega
      calc getMaskScanWidth x.width * x.height ≤ 33 * 256 :=
            Nat.mul_le_mul h1 hh2
        _ ≤ 8448 := by norm_num
    · omega
  have hdl : x.data.length ≤ 262144 := by
    rw [hlen]
    have : x.width * x.height ≤ 256 * 256 :=
      Nat.mul_le_mul hw2 hh2
    have hb4 : x.bpp ≤ 4 := by omega
    calc x.width * x.height * x.bpp ≤ 256 * 256 * 4 :=
          Nat.mul_le_mul this hb4
      _ = 262144 := by norm_num
  rw [createDirectory_some (by split <;> omega) (by split <;> omega)
    (by rcases hbpp with h | h <;> rw [h] <;> norm_num)
    (by simp only [constants]; omega) ho]
  refine ⟨rfl, ?_, ?_⟩ <;> rfl

/-- Closed witness for `createDirectory_dimension_bytes`: a 256×1 32-bit
image has width byte 0 (256 is encoded as 0) and height byte 1. -/
theorem createDirectory_dimension_bytes_witness :
    ((createDirectory ⟨256, 1, 4, List.replicate 1024 0⟩ 22).isSome = true ∧
    ((createDirectory ⟨256, 1, 4, List.replicate 1024 0⟩ 22).getD ([], 0)).1.getD 0 0 =
      (if (256 : Nat) = 256 then 0 else 256) ∧
    ((createDirectory ⟨256, 1, 4, List.replicate 1024 0⟩ 22).getD ([], 0)).1.getD 1 0 =
      (if (1 : Nat) = 256 then 0 else 1)) :=
  createDirectory_dimension_bytes ⟨256, 1, 4, List.replicate 1024 0⟩ 22
    (by norm_num) (by norm_num) (by norm_num) (by norm_num) (by norm_num)
    (by show (List.replicate 1024 (0 : Nat)).length = 256 * 1 * 4
        rw [List.length_replicate]) (by norm_num)

/-! ## createBitmap -/

theorem le32_roundtrip (v : Nat) :
    v % 256 + 256 * (v / 256 % 256) + 2 ^ 16 * (v / 2 ^ 16 % 256) +
      2 ^ 24 * (v / 2 ^ 24) = v := by
  omega

set_option maxRecDepth 2000 in
theorem createBitmap_some {x : Png} {c : Nat}
    (hw : x.width ≤ 2 ^ 31 - 1) (hh : x.height * 2 ≤ 2 ^ 31 - 1)
    (hb : x.bpp * 8 ≤ 65535) (hc : c < 2 ^ 32) (hl : x.data.length < 2 ^ 32) :
    createBitmap x c =
      some [40, 0, 0, 0,
            x.width % 256, x.width / 256 % 256, x.width / 2 ^ 16 % 256,
            x.width / 2 ^ 24,
            x.height * 2 % 256, x.height * 2 / 256 % 256,
            x.height * 2 / 2 ^ 16 % 256, x.height * 2 / 2 ^ 24,
            1, 0, x.bpp * 8 % 256, x.bpp * 8 / 256,
            c % 256, c / 256 % 256, c / 2 ^ 16 % 256, c / 2 ^ 24,
            x.data.length % 256, x.data.length / 256 % 256,
            x.data.length / 2 ^ 16 % 256, x.data.length / 2 ^ 24,
            0, 0, 0, 0, 0, 0, 0, 0, 0, 0, 0, 0, 0, 0, 0, 0] := by
  simp only [createBitmap, bufferAlloc]
  rw [writeU32LE_some (by norm_num [constants]) (by simp [constants])]
  simp only [some_bind]
  simp only [List.set, List.replicate, Nat.add_one_sub_one]
  rw [writeI32LE_some hw (by simp [constants])]
  simp only [some_bind]
  simp only [List.set, List.replicate, Nat.add_one_sub_one]
  rw [writeI32LE_some hh (by simp [constants])]
  simp only [some_bind]
  simp only [List.set, List.replicate, Nat.add_one_sub_one]
  rw [writeU16LE_some (by norm_num) (by simp [constants])]
  simp only [some_bind]
  simp only [List.set, List.replicate, Nat.add_one_sub_one]
  rw [writeU16LE_some hb (by simp [constants])]
  simp only [some_bind]
  simp only [List.set, List.replicate, Nat.add_one_sub_one]
  rw [writeU32LE_some hc (by simp [constants])]
  simp only [some_bind]
  simp only [List.set, List.replicate, Nat.add_one_sub_one]
  rw [writeU32LE_some hl (by simp [constants])]
  simp only [some_bind]
  simp only [List.set, List.replicate, Nat.add_one_sub_one]
  rw [writeI32LE_some (by norm_num) (by simp [constants])]
  simp only [some_bind]
  simp only [List.set, List.replicate, Nat.add_one_sub_one]
  rw [writeI32LE_some (by norm_num) (by simp [constants])]
  simp only [some_bind]
  simp only [List.set, List.replicate, Nat.add_one_sub_one]
  rw [writeU32LE_some (by norm_num) (by simp [constants])]
  simp only [some_bind]
  simp only [List.set, List.replicate, Nat.add_one_sub_one]
  rw [writeU32LE_some (by norm_num) (by simp [constants])]
  simp only [some_bind]
  simp only [List.set, List.replicate, Nat.add_one_sub_one]
  simp [List.set, List.replicate, constants]

/-- C8: for every valid image, whether 24-bit or 32-bit, the 40-byte bitmap
info header records headerSize 40, the width, a height field of exactly
twice the image height (also when no mask plane follows), planes 1,
bitCount `bpp*8`, the supplied compression constant, imageSize equal to the
pixel-array length, and zeros in the last four fields. -/
theorem createBitmap_fields (x : Png) (c : Nat)
    (hw2 : x.width ≤ 256) (hh2 : x.height ≤ 256)
    (hbpp : x.bpp = 3 ∨ x.bpp = 4)
    (hlen : x.data.length = x.width * x.height * x.bpp) (hc : c < 2 ^ 32) :
    (createBitmap x c).isSome = true ∧
    ((createBitmap x c).getD []).length = 40 ∧
    readU32LEv ((createBitmap x c).getD []) 0 = 40 ∧
    readU32LEv ((createBitmap x c).getD []) 4 = x.width ∧
    readU32LEv ((createBitmap x c).getD []) 8 = x.height * 2 ∧
    readU16LEv ((createBitmap x c).getD []) 12 = 1 ∧
    readU16LEv ((createBitmap x c).getD []) 14 = x.bpp * 8 ∧
    readU32LEv ((createBitmap x c).getD []) 16 = c ∧
    readU32LEv ((createBitmap x c).getD []) 20 = x.data.length ∧
    readU32LEv ((createBitmap x c).getD []) 24 = 0 ∧
    readU32LEv ((createBitmap x c).getD []) 28 = 0 ∧
    readU32LEv ((createBitmap x c).getD []) 32 = 0 ∧
    readU32LEv ((createBitmap x c).getD []) 36 = 0 := by
  have hb4 : x.bpp ≤ 4 := by omega
  have hdl : x.data.length ≤ 262144 := by
    rw [hlen]
    calc x.width * x.height * x.bpp ≤ 256 * 256 * 4 :=
          Nat.mul_le_mul (Nat.mul_le_mul hw2 hh2) hb4
      _ = 262144 := by norm_num
  rw [createBitmap_some (by omega) (by omega) (by omega) hc (by omega)]
  refine ⟨rfl, rfl, by norm_num [readU32LEv], ?_, ?_, by norm_num [readU16LEv], ?_,
    ?_, ?_, by norm_num [readU32LEv], by norm_num [readU32LEv],
    by norm_num [readU32LEv], by norm_num [readU32LEv]⟩
  · show x.width % 256 + 256 * (x.width / 256 % 256) +
      2 ^ 16 * (x.width / 2 ^ 16 % 256) + 2 ^ 24 * (x.width / 2 ^ 24) = x.width
    exact le32_roundtrip _
  · show x.height * 2 % 256 + 256 * (x.height * 2 / 256 % 256) +
      2 ^ 16 * (x.height * 2 / 2 ^ 16 % 256) + 2 ^ 24 * (x.height * 2 / 2 ^ 24) =
      x.height * 2
    exact le32_roundtrip _
  · show x.bpp * 8 % 256 + 256 * (x.bpp * 8 / 256) = x.bpp * 8
    omega
  · show c % 256 + 256 * (c / 256 % 256) + 2 ^ 16 * (c / 2 ^ 16 % 256) +
      2 ^ 24 * (c / 2 ^ 24) = c
    exact le32_roundtrip _
  · show x.data.length % 256 + 256 * (x.data.length / 256 % 256) +
      2 ^ 16 * (x.data.length / 2 ^ 16 % 256) + 2 ^ 24 * (x.data.length / 2 ^ 24) =
      x.data.length
    exact le32_roundtrip _

/-- Closed witness for `createBitmap_fields`: a 1×1 24-bit image, compression
0; in particular its height field is 2 even though no mask follows. -/
theorem createBitmap_fields_witness :
    ((createBitmap ⟨1, 1, 3, [5, 6, 7]⟩ 0).isSome = true ∧
    ((createBitmap ⟨1, 1, 3, [5, 6, 7]⟩ 0).getD []).length = 40 ∧
    readU32LEv ((createBitmap ⟨1, 1, 3, [5, 6, 7]⟩ 0).getD []) 0 = 40 ∧
    readU32LEv ((createBitmap ⟨1, 1, 3, [5, 6, 7]⟩ 0).getD []) 4 = 1 ∧
    readU32LEv ((createBitmap ⟨1, 1, 3, [5, 6, 7]⟩ 0).getD []) 8 = 1 * 2 ∧
    readU16LEv ((createBitmap ⟨1, 1, 3, [5, 6, 7]⟩ 0).getD []) 12 = 1 ∧
    readU16LEv ((createBitmap ⟨1, 1, 3, [5, 6, 7]⟩ 0).getD []) 14 = 3 * 8 ∧
    readU32LEv ((createBitmap ⟨1, 1, 3, [5, 6, 7]⟩ 0).getD []) 16 = 0 ∧
    readU32LEv ((createBitmap ⟨1, 1, 3, [5, 6, 7]⟩ 0).getD []) 20 = 3 ∧
    readU32LEv ((createBitmap ⟨1, 1, 3, [5, 6, 7]⟩ 0).getD []) 24 = 0 ∧
    readU32LEv ((createBitmap ⟨1, 1, 3, [5, 6, 7]⟩ 0).getD []) 28 = 0 ∧
    readU32LEv ((createBitmap ⟨1, 1, 3, [5, 6, 7]⟩ 0).getD []) 32 = 0 ∧
    readU32LEv ((createBitmap ⟨1, 1, 3, [5, 6, 7]⟩ 0).getD []) 36 = 0) :=
  createBitmap_fields ⟨1, 1, 3, [5, 6, 7]⟩ 0 (by norm_num) (by norm_num)
    (by norm_num) (by norm_num) (by norm_num)

/-! ## Directory offsets (C2) -/

theorem createDirectory_reads {x : Png} {offset : Nat} {r : List Nat × Nat}
    (h : createDirectory x offset = some r) :
    r.2 = x.data.length + constants.bitmapSize + maskLen x ∧
    r.1.length = 16 ∧
    readU32LEv r.1 8 = r.2 ∧ readU32LEv r.1 12 = offset := by
  obtain ⟨hw, hh, hb, hs, ho⟩ := createDirectory_eq_some h
  rw [createDirectory_some hw hh hb hs ho] at h
  have hr := (Option.some.injEq _ _ ▸ h).symm
  subst hr
  refine ⟨rfl, rfl, ?_, ?_⟩
  · show (x.data.length + constants.bitmapSize + maskLen x) % 256 +
      256 * ((x.data.length + constants.bitmapSize + maskLen x) / 256 % 256) +
      2 ^ 16 * ((x.data.length + constants.bitmapSize + maskLen x) / 2 ^ 16 % 256) +
      2 ^ 24 * ((x.data.length + constants.bitmapSize + maskLen x) / 2 ^ 24) =
      x.data.length + constants.bitmapSize + maskLen x
    exact le32_roundtrip _
  · show offset % 256 + 256 * (offset / 256 % 256) +
      2 ^ 16 * (offset / 2 ^ 16 % 256) + 2 ^ 24 * (offset / 2 ^ 24) = offset
    exact le32_roundtrip _

theorem icoDirLoop_offsets : ∀ (imgs : List Png) (off : Nat)
    (dirs : List (List Nat)), icoDirLoop imgs off = some dirs →
    dirs.length = imgs.length ∧
    (0 < dirs.length → readU32LEv (dirs.getD 0 []) 12 = off) ∧
    (∀ i, i < dirs.length → readU32LEv (dirs.getD i []) 8 =
      (imgs.getD i ⟨0, 0, 0, []⟩).data.length + constants.bitmapSize +
        maskLen (imgs.getD i ⟨0, 0, 0, []⟩)) ∧
    (∀ i, i + 1 < dirs.length →
      readU32LEv (dirs.getD (i + 1) []) 12 =
        readU32LEv (dirs.getD i []) 12 + readU32LEv (dirs.getD i []) 8)
  | [], off, dirs, h => by
    simp only [icoDirLoop] at h
    have : dirs = [] := (Option.some.injEq _ _ ▸ h).symm
    subst this
    refine ⟨rfl, by simp, by simp, by simp⟩
  | x :: xs, off, dirs, h => by
    simp only [icoDirLoop] at h
    obtain ⟨dir, hdir, h⟩ := optBind_eq_some.mp h
    obtain ⟨rest, hrest, h⟩ := optBind_eq_some.mp h
    have hdirs : dirs = dir.1 :: rest := (Option.some.injEq _ _ ▸ h).symm
    subst hdirs
    obtain ⟨hsz, -, hr8, hr12⟩ := createDirectory_reads hdir
    obtain ⟨ihlen, ih0, ihsz, ihrec⟩ := icoDirLoop_offsets xs (off + dir.2) rest hrest
    refine ⟨by simp [ihlen], fun _ => hr12, ?_, ?_⟩
    · intro i hi
      match i with
      | 0 => simpa using hr8.trans hsz
      | i + 1 =>
        have := ihsz i (by simpa using hi)
        simpa using this
    · intro i hi
      match i with
      | 0 =>
        have h0 := ih0 (by simpa using hi)
        simpa [hr12, hr8] using h0
      | i + 1 =>
        have := ihrec i (by simpa using hi)
        simpa using this

/-- C2: the first directory entry records file offset `6 + 16*N`, every
later entry records the previous entry's offset plus the previous entry's
recorded block size, and every entry's recorded size is the block length
`40 + pixelArrayLen + maskLen` of its image, in input order — so the blocks
are packed contiguously behind the directory. -/
theorem directory_offsets_contiguous (imgs : List Png) (dirs : List (List Nat))
    (h : icoDirLoop imgs
      (constants.headerSize + constants.directorySize * imgs.length) = some dirs) :
    dirs.length = imgs.length ∧
    (0 < dirs.length → readU32LEv (dirs.getD 0 []) 12 =
      constants.headerSize + constants.directorySize * imgs.length) ∧
    (∀ i, i < dirs.length → readU32LEv (dirs.getD i []) 8 =
      (imgs.getD i ⟨0, 0, 0, []⟩).data.length + constants.bitmapSize +
        maskLen (imgs.getD i ⟨0, 0, 0, []⟩)) ∧
    (∀ i, i + 1 < dirs.length →
      readU32LEv (dirs.getD (i + 1) []) 12 =
        readU32LEv (dirs.getD i []) 12 + readU32LEv (dirs.getD i []) 8) :=
  icoDirLoop_offsets imgs _ dirs h

/-- Closed witness for `directory_offsets_contiguous`: two 1×1 32-bit images;
the entries record offsets 38 and 38 + 48 = 86 and size 48 each. -/
theorem directory_offsets_contiguous_witness :
    (icoDirLoop [⟨1, 1, 4, [0, 0, 0, 250]⟩, ⟨1, 1, 4, [0, 0, 0, 250]⟩]
      (constants.headerSize + constants.directorySize *
        ([⟨1, 1, 4, [0, 0, 0, 250]⟩, ⟨1, 1, 4, [0, 0, 0, 250]⟩] : List Png).length) =
      some [[1, 1, 0, 0, 1, 0, 32, 0, 48, 0, 0, 0, 38, 0, 0, 0],
            [1, 1, 0, 0, 1, 0, 32, 0, 48, 0, 0, 0, 86, 0, 0, 0]]) ∧
    (([[1, 1, 0, 0, 1, 0, 32, 0, 48, 0, 0, 0, 38, 0, 0, 0],
       [1, 1, 0, 0, 1, 0, 32, 0, 48, 0, 0, 0, 86, 0, 0, 0]] : List (List Nat)).length =
      ([⟨1, 1, 4, [0, 0, 0, 250]⟩, ⟨1, 1, 4, [0, 0, 0, 250]⟩] : List Png).length ∧
    (0 < ([[1, 1, 0, 0, 1, 0, 32, 0, 48, 0, 0, 0, 38, 0, 0, 0],
           [1, 1, 0, 0, 1, 0, 32, 0, 48, 0, 0, 0, 86, 0, 0, 0]] : List (List Nat)).length →
      readU32LEv (([[1, 1, 0, 0, 1, 0, 32, 0, 48, 0, 0, 0, 38, 0, 0, 0],
           [1, 1, 0, 0, 1, 0, 32, 0, 48, 0, 0, 0, 86, 0, 0, 0]] : List (List Nat)).getD 0 []) 12 =
      constants.headerSize + constants.directorySize *
        ([⟨1, 1, 4, [0, 0, 0, 250]⟩, ⟨1, 1, 4, [0, 0, 0, 250]⟩] : List Png).length) ∧
    (∀ i, i < ([[1, 1, 0, 0, 1, 0, 32, 0, 48, 0, 0, 0, 38, 0, 0, 0],
           [1, 1, 0, 0, 1, 0, 32, 0, 48, 0, 0, 0, 86, 0, 0, 0]] : List (List Nat)).length →
      readU32LEv (([[1, 1, 0, 0, 1, 0, 32, 0, 48, 0, 0, 0, 38, 0, 0, 0],
           [1, 1, 0, 0, 1, 0, 32, 0, 48, 0, 0, 0, 86, 0, 0, 0]] : List (List Nat)).getD i []) 8 =
      (([⟨1, 1, 4, [0, 0, 0, 250]⟩, ⟨1, 1, 4, [0, 0, 0, 250]⟩] : List Png).getD i
          ⟨0, 0, 0, []⟩).data.length + constants.bitmapSize +
        maskLen (([⟨1, 1, 4, [0, 0, 0, 250]⟩, ⟨1, 1, 4, [0, 0, 0, 250]⟩] : List Png).getD i
          ⟨0, 0, 0, []⟩)) ∧
    (∀ i, i + 1 < ([[1, 1, 0, 0, 1, 0, 32, 0, 48, 0, 0, 0, 38, 0, 0, 0],
           [1, 1, 0, 0, 1, 0, 32, 0, 48, 0, 0, 0, 86, 0, 0, 0]] : List (List Nat)).length →
      readU32LEv (([[1, 1, 0, 0, 1, 0, 32, 0, 48, 0, 0, 0, 38, 0, 0, 0],
           [1, 1, 0, 0, 1, 0, 32, 0, 48, 0, 0, 0, 86, 0, 0, 0]] : List (List Nat)).getD (i + 1) []) 12 =
        readU32LEv (([[1, 1, 0, 0, 1, 0, 32, 0, 48, 0, 0, 0, 38, 0, 0, 0],
           [1, 1, 0, 0, 1, 0, 32, 0, 48, 0, 0, 0, 86, 0, 0, 0]] : List (List Nat)).getD i []) 12 +
        readU32LEv (([[1, 1, 0, 0, 1, 0, 32, 0, 48, 0, 0, 0, 38, 0, 0, 0],
           [1, 1, 0, 0, 1, 0, 32, 0, 48, 0, 0, 0, 86, 0, 0, 0]] : List (List Nat)).getD i []) 8)) :=
  ⟨by decide,
   directory_offsets_contiguous
     [⟨1, 1, 4, [0, 0, 0, 250]⟩, ⟨1, 1, 4, [0, 0, 0, 250]⟩]
     [[1, 1, 0, 0, 1, 0, 32, 0, 48, 0, 0, 0, 38, 0, 0, 0],
      [1, 1, 0, 0, 1, 0, 32, 0, 48, 0, 0, 0, 86, 0, 0, 0]] (by decide)⟩

/-! ## createDib: index bookkeeping -/

/-- The channel permutation `createDib` applies inside a pixel: bytes 0 and 2
swap, bytes 1 and 3 stay. -/
def dibSwap : Nat → Nat
  | 0 => 2
  | 2 => 0
  | k => k

/-- For an output byte position `j` of the transposed buffer, the input byte
position it was copied from: same column, source row `h - 1 - r`, channel
swapped. -/
def dibIndex (w h j : Nat) : Nat :=
  ((h - 1 - j / 4 / w) * w + j / 4 % w) * 4 + dibSwap (j % 4)

theorem mulAdd_div {w b c : Nat} (hc : c < w) : (b * w + c) / w = b := by
  rw [Nat.mul_comm b w, Nat.mul_add_div (by omega)]
  simp [Nat.div_eq_of_lt hc]

theorem mulAdd_mod {w b c : Nat} (hc : c < w) : (b * w + c) % w = c := by
  rw [Nat.mul_comm b w, Nat.mul_add_mod]
  exact Nat.mod_eq_of_lt hc

theorem dibSwap_lt {k : Nat} (hk : k < 4) : dibSwap k < 4 := by
  interval_cases k <;> simp [dibSwap]

theorem dibSwap_invol {k : Nat} (hk : k < 4) : dibSwap (dibSwap k) = k := by
  interval_cases k <;> rfl

theorem dibIndex_compute {w h r c k : Nat} (hc : c < w) (hk : k < 4) :
    dibIndex w h ((r * w + c) * 4 + k) = ((h - 1 - r) * w + c) * 4 + dibSwap k := by
  rw [dibIndex, mulAdd_div hk, mulAdd_mod hk, mulAdd_div hc, mulAdd_mod hc]

theorem sub_one_mul_add {a : Nat} (c : Nat) (h : 0 < a) : (a - 1) * c + c = a * c := by
  cases a with
  | zero => omega
  | succ a => simp [Nat.succ_mul]

theorem div4_lt {w h j : Nat} (hw : 0 < w) (hj : j < w * h * 4) : j / 4 / w < h := by
  have h3 : w * h = h * w := Nat.mul_comm w h
  have h1 : j / 4 < w * h := by omega
  rw [Nat.div_lt_iff_lt_mul hw]
  omega

theorem dibIndex_lt {w h j : Nat} (hw : 0 < w) (hh : 0 < h) (hj : j < w * h * 4) :
    dibIndex w h j < w * h * 4 := by
  have hr : j / 4 / w < h := div4_lt hw hj
  have hc : j / 4 % w < w := Nat.mod_lt _ hw
  have hs : dibSwap (j % 4) < 4 := dibSwap_lt (Nat.mod_lt _ (by norm_num))
  rw [dibIndex]
  generalize j / 4 / w = r at hr ⊢
  generalize j / 4 % w = c at hc ⊢
  generalize dibSwap (j % 4) = s at hs ⊢
  have e1 : (h - 1 - r) * w ≤ (h - 1) * w := Nat.mul_le_mul_right w (by omega)
  have e2 : (h - 1) * w + w = h * w := sub_one_mul_add w hh
  have e3 : w * h * 4 = h * w * 4 := by rw [Nat.mul_comm w h]
  have e4 : ((h - 1 - r) * w + c) * 4 = (h - 1 - r) * w * 4 + c * 4 := by ring
  rw [e4, e3]
  omega

theorem dibIndex_invol {w h j : Nat} (hw : 0 < w) (hj : j < w * h * 4) :
    dibIndex w h (dibIndex w h j) = j := by
  have hr : j / 4 / w < h := div4_lt hw hj
  have hc : j / 4 % w < w := Nat.mod_lt _ hw
  have hk : j % 4 < 4 := Nat.mod_lt _ (by norm_num)
  have hq : w * (j / 4 / w) + j / 4 % w = j / 4 := Nat.div_add_mod (j / 4) w
  have hq4 : 4 * (j / 4) + j % 4 = j := Nat.div_add_mod j 4
  generalize j / 4 / w = r at hr hq
  generalize j / 4 % w = c at hc hq
  generalize j % 4 = k at hk hq4
  have hcm : r * w = w * r := Nat.mul_comm r w
  have hdecomp : j = (r * w + c) * 4 + k := by omega
  rw [hdecomp, dibIndex_compute hc hk, dibIndex_compute hc (dibSwap_lt hk),
    dibSwap_invol hk]
  have hback : h - 1 - (h - 1 - r) = r := by omega
  rw [hback]

/-! ## createDib: loop characterization -/

theorem getD_le_255 {data : List Nat} (hb : ∀ b ∈ data, b ≤ 255) (p : Nat) :
    data.getD p 0 ≤ 255 := by
  by_cases hp : p < data.length
  · rw [List.getD_eq_getElem _ _ hp]
    exact hb _ (List.getElem_mem hp)
  · rw [List.getD_eq_getElem?_getD, List.getElem?_eq_none (by omega)]
    simp

theorem dibPixel_some {data buf : List Nat} {pos wpos : Nat}
    (hr : pos + 3 < data.length) (hw : wpos + 3 < buf.length)
    (hb : ∀ b ∈ data, b ≤ 255) :
    dibPixel data buf pos wpos =
      some ((((buf.set wpos (data.getD (pos + 2) 0)).set (wpos + 1)
        (data.getD (pos + 1) 0)).set (wpos + 2) (data.getD pos 0)).set (wpos + 3)
        (data.getD (pos + 3) 0)) := by
  simp only [dibPixel]
  rw [readU8_some (by omega)]
  simp only [some_bind]
  rw [readU8_some (by omega)]
  simp only [some_bind]
  rw [readU8_some (by omega)]
  simp only [some_bind]
  rw [readU8_some (by omega)]
  simp only [some_bind]
  rw [writeU8v_some (getD_le_255 hb _) (by omega)]
  simp only [some_bind]
  rw [writeU8v_some (getD_le_255 hb _) (by simp only [List.length_set]; omega)]
  simp only [some_bind]
  rw [writeU8v_some (getD_le_255 hb _) (by simp only [List.length_set]; omega)]
  simp only [some_bind]
  rw [writeU8v_some (getD_le_255 hb _) (by simp only [List.length_set]; omega)]
  simp only [some_bind]
  rfl

theorem dibPixel_getD {data buf : List Nat} {pos wpos : Nat}
    (hw : wpos + 3 < buf.length) (j : Nat) :
    ((((buf.set wpos (data.getD (pos + 2) 0)).set (wpos + 1)
      (data.getD (pos + 1) 0)).set (wpos + 2) (data.getD pos 0)).set (wpos + 3)
      (data.getD (pos + 3) 0)).getD j 0 =
      if j = wpos then data.getD (pos + 2) 0
      else if j = wpos + 1 then data.getD (pos + 1) 0
      else if j = wpos + 2 then data.getD pos 0
      else if j = wpos + 3 then data.getD (pos + 3) 0
      else buf.getD j 0 := by
  simp only [getD_set, List.length_set]
  split_ifs <;> first | rfl | omega

theorem createDibCols_spec {w h : Nat} (data : List Nat) (ri : Nat)
    (hlen : data.length = w * h * 4) (hb : ∀ b ∈ data, b ≤ 255) (hri : ri < h) :
    ∀ (n ci : Nat) (buf : List Nat), buf.length = data.length → ci + n ≤ w →
    ∃ buf2, createDibCols data 4 (ri * (w * 4)) (h * (w * 4) - w * 4) n ci buf =
        some buf2 ∧
      buf2.length = buf.length ∧
      ∀ j, j < buf.length →
        buf2.getD j 0 =
          if (h - 1 - ri) * (w * 4) + ci * 4 ≤ j ∧
              j < (h - 1 - ri) * (w * 4) + (ci + n) * 4
          then data.getD (dibIndex w h j) 0 else buf.getD j 0
  | 0, ci, buf, hbl, hciw => by
    refine ⟨buf, rfl, rfl, ?_⟩
    intro j hj
    rw [if_neg (by omega)]
  | n + 1, ci, buf, hbl, hciw => by
    have hEnd : (h - 1 - ri) * (w * 4) = h * (w * 4) - w * 4 - ri * (w * 4) := by
      rw [Nat.sub_mul, Nat.sub_mul, one_mul]
    have c1 : ri * (w * 4) ≤ (h - 1) * (w * 4) :=
      Nat.mul_le_mul_right _ (by omega)
    have c2 : (h - 1) * (w * 4) + w * 4 = h * (w * 4) :=
      sub_one_mul_add _ (by omega)
    have c3 : data.length = h * (w * 4) := by rw [hlen]; ring
    have c4 : (h - 1 - ri) * (w * 4) ≤ (h - 1) * (w * 4) :=
      Nat.mul_le_mul_right _ (by omega)
    have posb : ri * (w * 4) + ci * 4 + 3 < data.length := by omega
    have wposb : (h - 1 - ri) * (w * 4) + ci * 4 + 3 < buf.length := by omega
    obtain ⟨buf2, hrec, hlen2, hchar⟩ :=
      createDibCols_spec (w := w) (h := h) data ri hlen hb hri n (ci + 1)
        ((((buf.set ((h - 1 - ri) * (w * 4) + ci * 4)
            (data.getD (ri * (w * 4) + ci * 4 + 2) 0)).set
            ((h - 1 - ri) * (w * 4) + ci * 4 + 1)
            (data.getD (ri * (w * 4) + ci * 4 + 1) 0)).set
            ((h - 1 - ri) * (w * 4) + ci * 4 + 2)
            (data.getD (ri * (w * 4) + ci * 4) 0)).set
            ((h - 1 - ri) * (w * 4) + ci * 4 + 3)
            (data.getD (ri * (w * 4) + ci * 4 + 3) 0))
        (by simp only [List.length_set]; exact hbl) (by omega)
    refine ⟨buf2, ?_, ?_, ?_⟩
    · simp only [createDibCols]
      rw [← hEnd, dibPixel_some posb wposb hb]
      simp only [some_bind]
      exact hrec
    · rw [hlen2]
      simp only [List.length_set]
    · intro j hj
      rw [hchar j (by simp only [List.length_set]; omega)]
      rw [dibPixel_getD wposb j]
      by_cases h1 : (h - 1 - ri) * (w * 4) + (ci + 1) * 4 ≤ j ∧
          j < (h - 1 - ri) * (w * 4) + (ci + 1 + n) * 4
      · rw [if_pos h1, if_pos (by omega)]
      · rw [if_neg h1]
        by_cases h2 : (h - 1 - ri) * (w * 4) + ci * 4 ≤ j ∧
            j < (h - 1 - ri) * (w * 4) + (ci + (n + 1)) * 4
        · rw [if_pos h2]
          obtain ⟨k, hk4, hjk⟩ : ∃ k, k < 4 ∧
              j = (h - 1 - ri) * (w * 4) + ci * 4 + k :=
            ⟨j - ((h - 1 - ri) * (w * 4) + ci * 4), by omega, by omega⟩
          subst hjk
          have hciw2 : ci < w := by omega
          have hdi : dibIndex w h ((h - 1 - ri) * (w * 4) + ci * 4 + k) =
              ri * (w * 4) + ci * 4 + dibSwap k := by
            have e5 : (h - 1 - ri) * (w * 4) + ci * 4 + k =
                ((h - 1 - ri) * w + ci) * 4 + k := by ring
            have e6 : (ri * w + ci) * 4 = ri * (w * 4) + ci * 4 := by ring
            rw [e5, dibIndex_compute hciw2 hk4]
            have e7 : h - 1 - (h - 1 - ri) = ri := by omega
            rw [e7, e6]
          rw [hdi]
          interval_cases k
          · rw [if_pos (by omega)]
            rfl
          · rw [if_neg (by omega), if_pos (by omega)]
            rfl
          · rw [if_neg (by omega), if_neg (by omega), if_pos (by omega)]
            rfl
          · rw [if_neg (by omega), if_neg (by omega), if_neg (by omega),
              if_pos (by omega)]
            rfl
        · rw [if_neg h2]
          rw [if_neg (by omega), if_neg (by omega), if_neg (by omega),
            if_neg (by omega)]

theorem createDibRows_spec {w h : Nat} (data : List Nat)
    (hlen : data.length = w * h * 4) (hb : ∀ b ∈ data, b ≤ 255) :
    ∀ (n ri : Nat) (buf : List Nat), buf.length = data.length → ri + n ≤ h →
    ∃ buf2, createDibRows data w 4 (w * 4) (h * (w * 4) - w * 4) n ri buf =
        some buf2 ∧
      buf2.length = buf.length ∧
      ∀ j, j < buf.length →
        buf2.getD j 0 =
          if (h - ri - n) * (w * 4) ≤ j ∧ j < (h - ri) * (w * 4)
          then data.getD (dibIndex w h j) 0 else buf.getD j 0
  | 0, ri, buf, hbl, hrin => by
    refine ⟨buf, rfl, rfl, ?_⟩
    intro j hj
    rw [Nat.sub_zero, if_neg (by omega)]
  | n + 1, ri, buf, hbl, hrin => by
    have hri : ri < h := by omega
    obtain ⟨buf1, hcols, hlen1, hchar1⟩ :=
      createDibCols_spec data ri hlen hb hri w 0 buf hbl (by omega)
    obtain ⟨buf2, hrec, hlen2, hchar2⟩ :=
      createDibRows_spec data hlen hb n (ri + 1) buf1 (hlen1.trans hbl) (by omega)
    simp only [Nat.zero_mul, Nat.add_zero, Nat.zero_add] at hchar1
    have E4 : (h - ri - 1) * (w * 4) + w * 4 = (h - ri) * (w * 4) :=
      sub_one_mul_add _ (by omega)
    have E5 : h - ri - 1 = h - 1 - ri := by omega
    rw [E5] at E4
    have E6 : (h - ri - (n + 1)) * (w * 4) ≤ (h - 1 - ri) * (w * 4) :=
      Nat.mul_le_mul_right _ (by omega)
    refine ⟨buf2, ?_, hlen2.trans hlen1, ?_⟩
    · simp only [createDibRows]
      rw [hcols]
      simp only [some_bind]
      exact hrec
    · intro j hj
      rw [hchar2 j (by rw [hlen1]; exact hj)]
      have E2 : h - (ri + 1) - n = h - ri - (n + 1) := by omega
      have E1 : h - (ri + 1) = h - 1 - ri := by omega
      rw [E2, E1]
      by_cases hA : (h - ri - (n + 1)) * (w * 4) ≤ j ∧ j < (h - 1 - ri) * (w * 4)
      · rw [if_pos hA, if_pos (by omega)]
      · rw [if_neg hA, hchar1 j hj]
        by_cases hB : (h - 1 - ri) * (w * 4) ≤ j ∧
            j < (h - 1 - ri) * (w * 4) + w * 4
        · rw [if_pos hB, if_pos (by omega)]
        · rw [if_neg hB, if_neg (by omega)]

theorem list_eq_of_getD {l1 l2 : List Nat} (hlen : l1.length = l2.length)
    (h : ∀ j, j < l1.length → l1.getD j 0 = l2.getD j 0) : l1 = l2 := by
  apply List.ext_getElem hlen
  intro i h1 h2
  have := h i h1
  rwa [List.getD_eq_getElem _ _ h1, List.getD_eq_getElem _ _ h2] at this

theorem createDib_spec {w h : Nat} (data : List Nat) (_hw : 0 < w) (_hh : 0 < h)
    (hlen : data.length = w * h * 4) (hb : ∀ b ∈ data, b ≤ 255) :
    ∃ out, createDib data w h 4 = some out ∧ out.length = data.length ∧
      ∀ j, j < data.length → out.getD j 0 = data.getD (dibIndex w h j) 0 := by
  obtain ⟨out, hrun, hlen2, hchar⟩ :=
    createDibRows_spec data hlen hb h 0 (bufferAlloc data.length)
      (by simp [bufferAlloc]) (by omega)
  have hblen : (bufferAlloc data.length).length = data.length := by
    simp [bufferAlloc]
  refine ⟨out, ?_, by rw [hlen2, hblen], ?_⟩
  · simpa only [createDib] using hrun
  · intro j hj
    rw [hchar j (by rw [hblen]; exact hj)]
    have e : (h - 0) * (w * 4) = w * h * 4 := by
      rw [Nat.sub_zero]; ring
    rw [if_pos ⟨by simp [Nat.sub_self], by omega⟩]

/-- C6: for a 32-bit image with an exact-length pixel buffer, `createDib`
succeeds and applying it twice restores the original buffer bit for bit. -/
theorem createDib_involution (w h : Nat) (data : List Nat) (hw : 0 < w)
    (hh : 0 < h) (hlen : data.length = w * h * 4) (hb : ∀ b ∈ data, b ≤ 255) :
    ∃ mid, createDib data w h 4 = some mid ∧ createDib mid w h 4 = some data := by
  obtain ⟨mid, h1, hl1, hc1⟩ := createDib_spec data hw hh hlen hb
  have hmlen : mid.length = w * h * 4 := hl1.trans hlen
  have hmb : ∀ b ∈ mid, b ≤ 255 := by
    intro b hbm
    obtain ⟨i, hi, hbe⟩ := List.mem_iff_getElem.mp hbm
    have hgd : mid.getD i 0 = b := by rw [List.getD_eq_getElem _ _ hi, hbe]
    rw [← hgd, hc1 i (by omega)]
    exact getD_le_255 hb _
  obtain ⟨out, h2, hl2, hc2⟩ := createDib_spec mid hw hh hmlen hmb
  have hout : out = data := by
    apply list_eq_of_getD (by omega)
    intro j hj
    have hj2 : j < w * h * 4 := by omega
    rw [hc2 j (by omega), hc1 (dibIndex w h j)
      (by rw [hlen]; exact dibIndex_lt hw hh hj2), dibIndex_invol hw hj2]
  exact ⟨mid, h1, hout ▸ h2⟩

/-- Closed witness for `createDib_involution` on a 1×1 image. -/
theorem createDib_involution_witness :
    (0 < 1 ∧ ([1, 2, 3, 4] : List Nat).length = 1 * 1 * 4) ∧
    (∃ mid, createDib [1, 2, 3, 4] 1 1 4 = some mid ∧
      createDib mid 1 1 4 = some [1, 2, 3, 4]) :=
  ⟨⟨by decide, by decide⟩,
   createDib_involution 1 1 [1, 2, 3, 4] (by decide) (by decide) (by decide)
     (by decide)⟩

/-! ## createDib failure analysis (C4, C5) -/

theorem dibPixel_bound {data buf : List Nat} {pos wpos : Nat} {out : List Nat}
    (h : dibPixel data buf pos wpos = some out) : pos + 3 < data.length := by
  simp only [dibPixel] at h
  obtain ⟨r, hr, h⟩ := optBind_eq_some.mp h
  obtain ⟨g, hg, h⟩ := optBind_eq_some.mp h
  obtain ⟨b, hbb, h⟩ := optBind_eq_some.mp h
  obtain ⟨a, ha, h⟩ := optBind_eq_some.mp h
  exact (readU8_eq_some ha).1

theorem createDibCols_bound {data : List Nat} {bpp row endR : Nat} :
    ∀ {n ci : Nat} {buf out : List Nat},
    createDibCols data bpp row endR n ci buf = some out → 0 < n →
    row + (ci + n - 1) * bpp + 3 < data.length
  | 0, ci, buf, out, h, hn => absurd hn (by omega)
  | 1, ci, buf, out, h, hn => by
    simp only [createDibCols] at h
    obtain ⟨b1, hp, h⟩ := optBind_eq_some.mp h
    have := dibPixel_bound hp
    have e : ci + 1 - 1 = ci := by omega
    rw [e]
    exact this
  | n + 2, ci, buf, out, h, hn => by
    simp only [createDibCols] at h
    obtain ⟨b1, hp, h⟩ := optBind_eq_some.mp h
    have hfold : createDibCols data bpp row endR (n + 1) (ci + 1) b1 = some out := h
    have := createDibCols_bound hfold (by omega)
    have e : ci + 1 + (n + 1) - 1 = ci + (n + 2) - 1 := by omega
    rwa [e] at this

theorem createDibRows_bound {data : List Nat} {width bpp cols endR : Nat} :
    ∀ {n ri : Nat} {buf out : List Nat},
    createDibRows data width bpp cols endR n ri buf = some out → 0 < n →
    0 < width → (ri + n - 1) * cols + (width - 1) * bpp + 3 < data.length
  | 0, ri, buf, out, h, hn, hw => absurd hn (by omega)
  | 1, ri, buf, out, h, hn, hw => by
    simp only [createDibRows] at h
    obtain ⟨b1, hc, h⟩ := optBind_eq_some.mp h
    have := createDibCols_bound hc hw
    have e : ri + 1 - 1 = ri := by omega
    rw [e]
    have e2 : 0 + width - 1 = width - 1 := by omega
    rwa [e2] at this
  | n + 2, ri, buf, out, h, hn, hw => by
    simp only [createDibRows] at h
    obtain ⟨b1, hc, h⟩ := optBind_eq_some.mp h
    have hfold : createDibRows data width bpp cols endR (n + 1) (ri + 1) b1 =
        some out := h
    have := createDibRows_bound hfold (by omega) hw
    have e : ri + 1 + (n + 1) - 1 = ri + (n + 2) - 1 := by omega
    rwa [e] at this

/-- A 32-bit image whose pixel buffer is shorter than `width*height*4` makes
`createDib` throw: the loop indexes past the end of the source buffer. -/
theorem createDib_fail_short {w h : Nat} {data : List Nat} (hw : 0 < w)
    (hh : 0 < h) (hshort : data.length < w * h * 4) :
    createDib data w h 4 = none := by
  rcases hres : createDib data w h 4 with _ | out
  · rfl
  · exfalso
    simp only [createDib] at hres
    have hb := createDibRows_bound hres hh hw
    have e : 0 + h - 1 = h - 1 := by omega
    rw [e] at hb
    have c2 : (h - 1) * (w * 4) + w * 4 = h * (w * 4) := sub_one_mul_add _ hh
    have c3 : w * h * 4 = h * (w * 4) := by ring
    omega

theorem none_bind {a : Type} {b : Type} (f : a → Option b) :
    ((none : Option a) >>= f) = none := rfl

/-- C4 (failing evaluation): for a 24-bit image `createDib` reads the fourth
byte of a 3-byte pixel (`data.readUInt8(pos + 3)`) and writes a fourth byte
per pixel, indexing past the end of the buffers, so the transposition — and
with it the whole encode — fails on every 24-bit image; shown on the
smallest one. -/
theorem createDib_bpp3_out_of_bounds :
    createDib [10, 20, 30] 1 1 3 = none ∧
    generateIco [⟨1, 1, 3, [10, 20, 30]⟩] = none := by
  exact ⟨by decide, by decide⟩

/-- C5 (counterexample): an image declaring 5 bytes per pixel — outside
{3, 4} — is not rejected: the encoder returns a buffer. -/
theorem generateIco_accepts_bpp5 :
    (generateIco [⟨1, 1, 5, [1, 2, 3, 4, 5]⟩]).isSome = true := by
  decide

/-- C5 (amended): there is no explicit validation, but a 32-bit image whose
pixel buffer is shorter than `width*height*4` makes the encode fail with no
output, by an out-of-range buffer access inside the pixel transposition. -/
theorem generateIco_short_buffer_fails (w h : Nat) (data : List Nat)
    (hw1 : 1 ≤ w) (hw2 : w ≤ 256) (hh1 : 1 ≤ h) (hh2 : h ≤ 256)
    (hshort : data.length < w * h * 4) :
    generateIco [⟨w, h, 4, data⟩] = none := by
  have hd262 : data.length < 262144 := by
    have : w * h * 4 ≤ 256 * 256 * 4 :=
      Nat.mul_le_mul (Nat.mul_le_mul hw2 hh2) (le_refl 4)
    omega
  simp only [generateIco, icoDirLoop, icoBlockLoop, Option.pure_def]
  rw [createHeader_some (by simp)]
  simp only [some_bind]
  rw [createDirectory_some (x := ⟨w, h, 4, data⟩)
    (by show (if w = 256 then 0 else w) ≤ 255
        split <;> omega)
    (by show (if h = 256 then 0 else h) ≤ 255
        split <;> omega)
    (by show 4 * 8 ≤ 65535
        norm_num)
    (by show data.length + constants.bitmapSize + maskLen ⟨w, h, 4, data⟩ < 2 ^ 32
        have h1 : getMaskScanWidth w ≤ 33 := by rw [getMaskScanWidth_eq]; omega
        have h2 : maskLen ⟨w, h, 4, data⟩ = getMaskScanWidth w * h := by
          simp [maskLen]
        have h3 : getMaskScanWidth w * h ≤ 33 * 256 := Nat.mul_le_mul h1 hh2
        simp only [constants]
        omega)
    (by norm_num [constants])]
  simp only [some_bind]
  rw [createBitmap_some (x := ⟨w, h, 4, data⟩)
    (by show w ≤ 2 ^ 31 - 1
        omega)
    (by show h * 2 ≤ 2 ^ 31 - 1
        omega)
    (by show 4 * 8 ≤ 65535
        norm_num)
    (by norm_num [constants])
    (by show data.length < 2 ^ 32
        omega)]
  simp only [some_bind]
  rw [createDib_fail_short (by omega) (by omega) hshort]
  simp only [none_bind]

/-- Closed witness for `generateIco_short_buffer_fails`: an empty pixel
buffer for a declared 1×1 32-bit image. -/
theorem generateIco_short_buffer_fails_witness :
    ([] : List Nat).length < 1 * 1 * 4 ∧ generateIco [⟨1, 1, 4, []⟩] = none :=
  ⟨by decide, generateIco_short_buffer_fails 1 1 [] (by decide) (by decide)
    (by decide) (by decide) (by decide)⟩

/-! ## createMask: byte-level bit characterization -/

theorem testBit_ite_pow {c : Prop} [Decidable c] {k b : Nat} :
    ((if c then 0 else 2 ^ k) : Nat).testBit b = (decide (¬c) && decide (k = b)) := by
  split_ifs with hc
  · simp [hc]
  · simp [hc, Nat.testBit_two_pow]

theorem maskGroupByte_le (a0 a1 a2 a3 a4 a5 a6 a7 t : Nat) :
    maskGroupByte a0 a1 a2 a3 a4 a5 a6 a7 t ≤ 255 := by
  unfold maskGroupByte
  split_ifs <;> decide

theorem testBit_ite_lit {c : Prop} [Decidable c] {v b : Nat} :
    ((if c then 0 else v) : Nat).testBit b = (decide (¬c) && v.testBit b) := by
  split_ifs with hc <;> simp [hc]

theorem maskGroupByte_testBit {a0 a1 a2 a3 a4 a5 a6 a7 t b : Nat} (hb : b < 8) :
    ((maskGroupByte a0 a1 a2 a3 a4 a5 a6 a7 t).testBit b = true ↔
      [a0, a1, a2, a3, a4, a5, a6, a7].getD (7 - b) 0 < t) := by
  rw [maskGroupByte]
  interval_cases b <;>
    (simp only [Nat.testBit_lor, testBit_ite_lit]
     simp [Nat.testBit, Nat.not_le])

theorem maskTail_spec {data : List Nat} {t : Nat} :
    ∀ (n srcPos x0 m0 : Nat),
    (∀ i, i < n → srcPos + 4 * i < data.length) → m0 ≤ 255 →
    ∃ m, maskTail data t n srcPos x0 m0 = some (m, srcPos + 4 * n) ∧ m ≤ 255 ∧
      ∀ b, (m.testBit b = true ↔
        (m0.testBit b = true ∨
          ∃ i, i < n ∧ 7 - (x0 + i) = b ∧ data.getD (srcPos + 4 * i) 0 < t))
  | 0, srcPos, x0, m0, hr, hm => by
    refine ⟨m0, rfl, hm, ?_⟩
    intro b
    simp
  | n + 1, srcPos, x0, m0, hr, hm => by
    have hrd : srcPos < data.length := by
      have := hr 0 (by omega)
      simpa using this
    have hm2 : m0 ||| (if data.getD srcPos 0 ≥ t then 0 else 2 ^ (7 - x0)) ≤ 255 := by
      have h1 : m0 < 2 ^ 8 := by omega
      have h2 : (if data.getD srcPos 0 ≥ t then (0 : Nat) else 2 ^ (7 - x0)) < 2 ^ 8 := by
        split
        · norm_num
        · have h70 : 7 - x0 ≤ 7 := by omega
          calc 2 ^ (7 - x0) ≤ 2 ^ 7 := Nat.pow_le_pow_right (by norm_num) h70
            _ < 2 ^ 8 := by norm_num
      have hlt : m0 ||| (if data.getD srcPos 0 ≥ t then 0 else 2 ^ (7 - x0)) <
          2 ^ 8 := Nat.bitwise_lt_two_pow h1 h2
      omega
    have hr2 : ∀ i, i < n → srcPos + 4 + 4 * i < data.length := by
      intro i hi
      have := hr (i + 1) (by omega)
      omega
    obtain ⟨m, hrun, hmb, hbits⟩ := maskTail_spec n (srcPos + 4) (x0 + 1) _ hr2 hm2
    have e : srcPos + 4 + 4 * n = srcPos + 4 * (n + 1) := by ring
    rw [e] at hrun
    refine ⟨m, ?_, hmb, ?_⟩
    · simp only [maskTail]
      rw [readU8_some hrd]
      simp only [some_bind]
      exact hrun
    · intro b
      rw [hbits b]
      constructor
      · rintro (hb0 | ⟨i, hi, hib, hd⟩)
        · rw [Nat.testBit_lor, Bool.or_eq_true] at hb0
          rcases hb0 with hb0 | hb0
          · exact Or.inl hb0
          · rw [testBit_ite_pow, Bool.and_eq_true, decide_eq_true_eq,
              decide_eq_true_eq] at hb0
            refine Or.inr ⟨0, by omega, by omega, ?_⟩
            have : srcPos + 4 * 0 = srcPos := by omega
            rw [this]
            omega
        · refine Or.inr ⟨i + 1, by omega, by omega, ?_⟩
          have e2 : srcPos + 4 * (i + 1) = srcPos + 4 + 4 * i := by ring
          rw [e2]
          exact hd
      · rintro (hb0 | ⟨i, hi, hib, hd⟩)
        · refine Or.inl ?_
          rw [Nat.testBit_lor, Bool.or_eq_true]
          exact Or.inl hb0
        · match i with
          | 0 =>
            refine Or.inl ?_
            rw [Nat.testBit_lor, Bool.or_eq_true]
            refine Or.inr ?_
            rw [testBit_ite_pow, Bool.and_eq_true, decide_eq_true_eq,
              decide_eq_true_eq]
            constructor
            · have e3 : srcPos + 4 * 0 = srcPos := by omega
              rw [e3] at hd
              omega
            · omega
          | i + 1 =>
            refine Or.inr ⟨i, by omega, by omega, ?_⟩
            have e2 : srcPos + 4 * (i + 1) = srcPos + 4 + 4 * i := by ring
            rw [e2] at hd
            exact hd

theorem maskGroups_spec {data : List Nat} {t : Nat} :
    ∀ (n srcPos dstPos : Nat) (buf : List Nat),
    (∀ i, i < n → srcPos + 32 * i + 28 < data.length) →
    dstPos + n ≤ buf.length →
    ∃ buf2, maskGroups data t n srcPos dstPos buf =
        some (buf2, srcPos + 32 * n, dstPos + n) ∧
      buf2.length = buf.length ∧
      ∀ j, j < buf.length →
        buf2.getD j 0 =
          if dstPos ≤ j ∧ j < dstPos + n then
            maskGroupByte (data.getD (srcPos + 32 * (j - dstPos)) 0)
              (data.getD (srcPos + 32 * (j - dstPos) + 4) 0)
              (data.getD (srcPos + 32 * (j - dstPos) + 8) 0)
              (data.getD (srcPos + 32 * (j - dstPos) + 12) 0)
              (data.getD (srcPos + 32 * (j - dstPos) + 16) 0)
              (data.getD (srcPos + 32 * (j - dstPos) + 20) 0)
              (data.getD (srcPos + 32 * (j - dstPos) + 24) 0)
              (data.getD (srcPos + 32 * (j - dstPos) + 28) 0) t
          else buf.getD j 0
  | 0, srcPos, dstPos, buf, hr, hwb => by
    refine ⟨buf, rfl, rfl, ?_⟩
    intro j hj
    rw [if_neg (by omega)]
  | n + 1, srcPos, dstPos, buf, hr, hwb => by
    have h0 := hr 0 (by omega)
    have hb0 : srcPos + 32 * 0 + 28 = srcPos + 28 := by omega
    rw [hb0] at h0
    have hr2 : ∀ i, i < n → srcPos + 32 + 32 * i + 28 < data.length := by
      intro i hi
      have := hr (i + 1) (by omega)
      omega
    obtain ⟨buf2, hrun, hlen2, hchar⟩ := maskGroups_spec n (srcPos + 32)
      (dstPos + 1)
      (buf.set dstPos (maskGroupByte (data.getD srcPos 0)
        (data.getD (srcPos + 4) 0) (data.getD (srcPos + 8) 0)
        (data.getD (srcPos + 12) 0) (data.getD (srcPos + 16) 0)
        (data.getD (srcPos + 20) 0) (data.getD (srcPos + 24) 0)
        (data.getD (srcPos + 28) 0) t))
      hr2 (by simp only [List.length_set]; omega)
    have e1 : srcPos + 32 + 32 * n = srcPos + 32 * (n + 1) := by ring
    have e2 : dstPos + 1 + n = dstPos + (n + 1) := by ring
    rw [e1, e2] at hrun
    refine ⟨buf2, ?_, by rw [hlen2]; simp only [List.length_set], ?_⟩
    · simp only [maskGroups]
      rw [readU8_some (by omega)]
      simp only [some_bind]
      rw [readU8_some (by omega)]
      simp only [some_bind]
      rw [readU8_some (by omega)]
      simp only [some_bind]
      rw [readU8_some (by omega)]
      simp only [some_bind]
      rw [readU8_some (by omega)]
      simp only [some_bind]
      rw [readU8_some (by omega)]
      simp only [some_bind]
      rw [readU8_some (by omega)]
      simp only [some_bind]
      rw [readU8_some (by omega)]
      simp only [some_bind]
      rw [writeU8v_some (maskGroupByte_le _ _ _ _ _ _ _ _ _) (by omega)]
      simp only [some_bind]
      exact hrun
    · intro j hj
      rw [hchar j (by simp only [List.length_set]; omega)]
      by_cases h1 : dstPos + 1 ≤ j ∧ j < dstPos + 1 + n
      · rw [if_pos h1, if_pos (by omega)]
        have eidx : srcPos + 32 + 32 * (j - (dstPos + 1)) =
            srcPos + 32 * (j - dstPos) := by omega
        rw [eidx]
      · rw [if_neg h1]
        by_cases h2 : dstPos ≤ j ∧ j < dstPos + (n + 1)
        · have hjd : j = dstPos := by omega
          subst hjd
          rw [if_pos h2, getD_set, if_pos ⟨rfl, by omega⟩]
          have ez : j - j = 0 := by omega
          simp only [ez, Nat.mul_zero, Nat.add_zero]
        · rw [if_neg h2, getD_set, if_neg (by omega)]

theorem cb_le_sw (w : Nat) :
    w / 8 + (if w % 8 = 0 then 0 else 1) ≤ getMaskScanWidth w := by
  rw [getMaskScanWidth_eq]
  split <;> omega

theorem sw_pos {w : Nat} (hw : 0 < w) : 0 < getMaskScanWidth w := by
  rw [getMaskScanWidth_eq]
  omega

theorem maskRow_spec {data : List Nat} {t w y srcPos : Nat} {buf : List Nat}
    (_hw : 0 < w)
    (hreads : ∀ x, x < w → srcPos + 4 * x < data.length)
    (hwb : y * getMaskScanWidth w + getMaskScanWidth w ≤ buf.length) :
    ∃ buf2 : List Nat, maskRow data t w (getMaskScanWidth w) y srcPos buf =
        some (buf2, srcPos + 4 * w) ∧
      buf2.length = buf.length ∧
      (∀ j, j < buf.length →
        ¬(y * getMaskScanWidth w ≤ j ∧
          j < y * getMaskScanWidth w + (w / 8 + if w % 8 = 0 then 0 else 1)) →
        buf2.getD j 0 = buf.getD j 0) ∧
      (∀ j, y * getMaskScanWidth w ≤ j →
        j < y * getMaskScanWidth w + (w / 8 + if w % 8 = 0 then 0 else 1) →
        ∀ b, b < 8 →
        ((buf2.getD j 0).testBit b = true ↔
          (8 * (j - y * getMaskScanWidth w) + (7 - b) < w ∧
            data.getD (srcPos + 4 * (8 * (j - y * getMaskScanWidth w) + (7 - b))) 0 < t))) := by
  have hcb := cb_le_sw w
  have hgr : ∀ i, i < w / 8 → srcPos + 32 * i + 28 < data.length := by
    intro i hi
    have := hreads (8 * i + 7) (by omega)
    omega
  obtain ⟨buf1, hg, hlen1, hchar1⟩ := maskGroups_spec (t := t) (w / 8) srcPos
    (y * getMaskScanWidth w) buf hgr (by omega)
  have hfullbit : ∀ j, y * getMaskScanWidth w ≤ j →
      j < y * getMaskScanWidth w + w / 8 → ∀ b, b < 8 →
      ((buf1.getD j 0).testBit b = true ↔
        (8 * (j - y * getMaskScanWidth w) + (7 - b) < w ∧
          data.getD (srcPos + 4 * (8 * (j - y * getMaskScanWidth w) + (7 - b))) 0 < t)) := by
    intro j hj1 hj2 b hb
    rw [hchar1 j (by omega), if_pos (by omega), maskGroupByte_testBit hb]
    have hxw : 8 * (j - y * getMaskScanWidth w) + (7 - b) < w := by omega
    have eidx : srcPos + 4 * (8 * (j - y * getMaskScanWidth w) + (7 - b)) =
        srcPos + 32 * (j - y * getMaskScanWidth w) + 4 * (7 - b) := by omega
    rw [eidx]
    interval_cases b <;> simp [hxw] <;> (intro _; omega)
  by_cases hmod : w % 8 = 0
  · have e32 : srcPos + 32 * (w / 8) = srcPos + 4 * w := by omega
    refine ⟨buf1, ?_, hlen1, ?_, ?_⟩
    · simp only [maskRow]
      rw [hg]
      simp only [some_bind]
      rw [if_pos hmod, e32]
      rfl
    · intro j hj hnot
      rw [hchar1 j hj, if_neg (by simp only [hmod] at hnot; simp at hnot; omega)]
    · intro j hj1 hj2 b hb
      simp only [hmod] at hj2
      simp at hj2
      exact hfullbit j hj1 (by omega) b hb
  · have htr : ∀ i, i < w % 8 → srcPos + 32 * (w / 8) + 4 * i < data.length := by
      intro i hi
      have := hreads (8 * (w / 8) + i) (by omega)
      omega
    rw [if_neg hmod] at hcb
    obtain ⟨m, htail, hmle, hmbits⟩ :=
      maskTail_spec (t := t) (w % 8) (srcPos + 32 * (w / 8)) 0 0 htr (by norm_num)
    have e4w : srcPos + 32 * (w / 8) + 4 * (w % 8) = srcPos + 4 * w := by omega
    rw [e4w] at htail
    refine ⟨buf1.set (y * getMaskScanWidth w + w / 8) m, ?_, ?_, ?_, ?_⟩
    · simp only [maskRow]
      rw [hg]
      simp only [some_bind]
      rw [if_neg hmod, htail]
      simp only [some_bind]
      rw [writeU8v_some hmle (by omega)]
      simp only [some_bind]
      rfl
    · simp only [List.length_set, hlen1]
    · intro j hj hnot
      simp only [hmod] at hnot
      simp at hnot
      rw [getD_set, if_neg (by omega), hchar1 j hj, if_neg (by omega)]
    · intro j hj1 hj2 b hb
      simp only [hmod] at hj2
      simp at hj2
      by_cases hpart : j = y * getMaskScanWidth w + w / 8
      · subst hpart
        rw [getD_set, if_pos ⟨rfl, by omega⟩, hmbits b]
        simp only [Nat.zero_testBit, Bool.false_eq_true, Nat.zero_add, false_or]
        constructor
        · rintro ⟨i, hi, hib, hd⟩
          have hxw : 8 * (y * getMaskScanWidth w + w / 8 -
              y * getMaskScanWidth w) + (7 - b) < w := by omega
          refine ⟨hxw, ?_⟩
          have eidx : srcPos + 4 * (8 * (y * getMaskScanWidth w + w / 8 -
              y * getMaskScanWidth w) + (7 - b)) =
              srcPos + 32 * (w / 8) + 4 * i := by omega
          rw [eidx]
          exact hd
        · rintro ⟨hxw, hd⟩
          refine ⟨7 - b, by omega, by omega, ?_⟩
          have eidx : srcPos + 32 * (w / 8) + 4 * (7 - b) =
              srcPos + 4 * (8 * (y * getMaskScanWidth w + w / 8 -
                y * getMaskScanWidth w) + (7 - b)) := by omega
          rw [eidx]
          exact hd
      · rw [getD_set, if_neg (by omega)]
        exact hfullbit j hj1 (by omega) b hb

theorem row_decomp {sw y j : Nat} (h1 : y * sw ≤ j) (h2 : j < y * sw + sw) :
    j / sw = y ∧ j % sw = j - y * sw := by
  obtain ⟨c, hc, rfl⟩ : ∃ c, c < sw ∧ j = y * sw + c :=
    ⟨j - y * sw, by omega, by omega⟩
  constructor
  · exact mulAdd_div hc
  · rw [mulAdd_mod hc]
    omega

theorem maskRowsLoop_spec {data : List Nat} {t w H : Nat}
    (hw : 0 < w) (hdata : data.length = w * H * 4) :
    ∀ (n y : Nat) (buf : List Nat), y + n ≤ H →
    buf.length = getMaskScanWidth w * H →
    (∀ j, y * getMaskScanWidth w ≤ j → j < buf.length → buf.getD j 0 = 0) →
    ∃ buf2, maskRowsLoop data t w (getMaskScanWidth w) n y
        (3 + 4 * (w * y)) buf = some buf2 ∧
      buf2.length = buf.length ∧
      (∀ j, j < buf.length →
        ¬(y * getMaskScanWidth w ≤ j ∧ j < (y + n) * getMaskScanWidth w) →
        buf2.getD j 0 = buf.getD j 0) ∧
      (∀ j, y * getMaskScanWidth w ≤ j → j < (y + n) * getMaskScanWidth w →
        ∀ b, b < 8 →
        ((buf2.getD j 0).testBit b = true ↔
          (8 * (j % getMaskScanWidth w) + (7 - b) < w ∧
            data.getD ((j / getMaskScanWidth w * w +
              (8 * (j % getMaskScanWidth w) + (7 - b))) * 4 + 3) 0 < t)))
  | 0, y, buf, hyn, hbl, hzero => by
    refine ⟨buf, rfl, rfl, ?_, ?_⟩
    · intro j hj hnot
      rfl
    · intro j hj1 hj2 b hb
      rw [Nat.add_zero] at hj2
      omega
  | n + 1, y, buf, hyn, hbl, hzero => by
    have hcb := cb_le_sw w
    have hsw0 := sw_pos hw
    have e3 : (y + 1) * getMaskScanWidth w =
        y * getMaskScanWidth w + getMaskScanWidth w := Nat.succ_mul y _
    have e4 : (y + 1) * getMaskScanWidth w ≤ H * getMaskScanWidth w :=
      Nat.mul_le_mul_right _ (by omega)
    have e5 : getMaskScanWidth w * H = H * getMaskScanWidth w := Nat.mul_comm _ _
    have emul : w * (y + 1) = w * y + w := Nat.mul_succ w y
    have emulH : w * (y + 1) ≤ w * H := Nat.mul_le_mul_left w (by omega)
    have e7 : (y + (n + 1)) * getMaskScanWidth w ≤ H * getMaskScanWidth w :=
      Nat.mul_le_mul_right _ (by omega)
    have e8 : (y + 1) * getMaskScanWidth w ≤ (y + (n + 1)) * getMaskScanWidth w :=
      Nat.mul_le_mul_right _ (by omega)
    obtain ⟨buf1, hrow, hlen1, hunch1, hbits1⟩ :=
      @maskRow_spec data t w y (3 + 4 * (w * y)) buf hw
        (by intro x hx
            omega)
        (by omega)
    obtain ⟨buf2, hrec, hlen2, hunch2, hbits2⟩ :=
      maskRowsLoop_spec (t := t) hw hdata n (y + 1) buf1 (by omega)
        (by rw [hlen1, hbl])
        (by intro j hj1 hj2
            rw [hunch1 j (by omega) (by omega)]
            exact hzero j (by omega) (by omega))
    have e6 : y + 1 + n = y + (n + 1) := by omega
    rw [e6] at hunch2 hbits2
    have esrc : 3 + 4 * (w * y) + 4 * w = 3 + 4 * (w * (y + 1)) := by
      rw [emul]
      ring
    refine ⟨buf2, ?_, hlen2.trans hlen1, ?_, ?_⟩
    · simp only [maskRowsLoop]
      rw [hrow]
      simp only [some_bind]
      rw [esrc]
      exact hrec
    · intro j hj hnot
      rw [hunch2 j (by omega) (by omega), hunch1 j hj (by omega)]
    · intro j hj1 hj2 b hb
      by_cases hrow1 : j < (y + 1) * getMaskScanWidth w
      · rw [hunch2 j (by omega) (by omega)]
        obtain ⟨hdiv, hmod2⟩ := @row_decomp (getMaskScanWidth w) y j hj1 (by omega)
        rw [hdiv, hmod2]
        by_cases hin : j < y * getMaskScanWidth w +
            (w / 8 + if w % 8 = 0 then 0 else 1)
        · have hmc : y * w = w * y := Nat.mul_comm y w
          have eidx : (y * w + (8 * (j - y * getMaskScanWidth w) + (7 - b))) * 4 + 3 =
              3 + 4 * (w * y) + 4 * (8 * (j - y * getMaskScanWidth w) + (7 - b)) := by
            omega
          rw [eidx]
          exact hbits1 j hj1 hin b hb
        · rw [hunch1 j (by omega) (by omega), hzero j (by omega) (by omega)]
          simp only [Nat.zero_testBit, Bool.false_eq_true, false_iff]
          rintro ⟨hx, -⟩
          have hscb : w ≤ 8 * (w / 8 + (if w % 8 = 0 then 0 else 1)) := by
            split <;> omega
          have hq : w / 8 + (if w % 8 = 0 then 0 else 1) ≤
              j - y * getMaskScanWidth w := by omega
          omega
      · exact hbits2 j (by omega) (by omega) b hb

theorem bufferAlloc_getD (n j : Nat) : (bufferAlloc n).getD j 0 = 0 := by
  rw [bufferAlloc, List.getD_eq_getElem?_getD]
  rcases Nat.lt_or_ge j n with hj | hj
  · rw [List.getElem?_eq_getElem (by simpa using hj)]
    simp
  · rw [List.getElem?_eq_none (by simpa using hj)]
    rfl

/-- C3: for a 32-bit image with exact-length transposed buffer, `createMask`
returns exactly `scanWidth * height` bytes with
`scanWidth = ceil(width/32)*4`; bit `7 - (x mod 8)` of byte
`y*scanWidth + x/8` is set exactly when pixel `(x, y)`'s alpha byte is
strictly below the threshold, and every bit not backed by a pixel —
trailing bits of an incomplete byte and whole padding bytes — is clear. -/
theorem createMask_spec (data : List Nat) (w h t : Nat)
    (hw1 : 1 ≤ w) (_hw2 : w ≤ 256) (_hh1 : 1 ≤ h) (_hh2 : h ≤ 256)
    (hlen : data.length = w * h * 4) :
    (createMask data w h t).isSome = true ∧
    ((createMask data w h t).getD []).length = getMaskScanWidth w * h ∧
    getMaskScanWidth w = (w + 31) / 32 * 4 ∧
    (∀ j, j < getMaskScanWidth w * h → ∀ b, b < 8 →
      ((((createMask data w h t).getD []).getD j 0).testBit b = true ↔
        (8 * (j % getMaskScanWidth w) + (7 - b) < w ∧
          data.getD ((j / getMaskScanWidth w * w +
            (8 * (j % getMaskScanWidth w) + (7 - b))) * 4 + 3) 0 < t))) ∧
    (∀ y x, y < h → x < w →
      ((((createMask data w h t).getD []).getD
          (y * getMaskScanWidth w + x / 8) 0).testBit (7 - x % 8) = true ↔
        data.getD ((y * w + x) * 4 + 3) 0 < t)) := by
  have hw : 0 < w := hw1
  have hcb := cb_le_sw w
  have hsw0 := sw_pos hw
  obtain ⟨out, hrun, hlen2, hunch, hbits⟩ :=
    maskRowsLoop_spec (t := t) (H := h) hw hlen h 0
      (bufferAlloc (getMaskScanWidth w * h)) (by omega)
      (by simp [bufferAlloc])
      (by intro j h1 h2
          exact bufferAlloc_getD _ _)
  have hrun2 : maskRowsLoop data t w (getMaskScanWidth w) h 0 3
      (bufferAlloc (getMaskScanWidth w * h)) = some out := hrun
  have hcm : createMask data w h t = some out := by
    simp only [createMask]
    exact hrun2
  have hlout : out.length = getMaskScanWidth w * h := by
    rw [hlen2]
    simp [bufferAlloc]
  have ecomm : getMaskScanWidth w * h = h * getMaskScanWidth w :=
    Nat.mul_comm _ _
  have ezadd : (0 + h) * getMaskScanWidth w = h * getMaskScanWidth w := by
    rw [Nat.zero_add]
  have hmain : ∀ j, j < getMaskScanWidth w * h → ∀ b, b < 8 →
      ((out.getD j 0).testBit b = true ↔
        (8 * (j % getMaskScanWidth w) + (7 - b) < w ∧
          data.getD ((j / getMaskScanWidth w * w +
            (8 * (j % getMaskScanWidth w) + (7 - b))) * 4 + 3) 0 < t)) := by
    intro j hj b hb
    exact hbits j (by simp) (by omega) b hb
  rw [hcm]
  simp only [Option.getD_some]
  refine ⟨rfl, hlout, getMaskScanWidth_eq w, hmain, ?_⟩
  intro y x hy hx
  have hx8 : x / 8 < getMaskScanWidth w := by
    have h8 : 8 * (w / 8) + w % 8 = w := Nat.div_add_mod w 8
    have hq : x / 8 ≤ w / 8 := Nat.div_le_div_right (by omega)
    have : w ≤ 8 * (w / 8 + (if w % 8 = 0 then 0 else 1)) := by split <;> omega
    by_cases hm : w % 8 = 0
    · have : x / 8 < w / 8 := by
        have := Nat.div_add_mod x 8
        omega
      omega
    · omega
  have e3 : (y + 1) * getMaskScanWidth w =
      y * getMaskScanWidth w + getMaskScanWidth w := Nat.succ_mul y _
  have e4 : (y + 1) * getMaskScanWidth w ≤ h * getMaskScanWidth w :=
    Nat.mul_le_mul_right _ (by omega)
  have hjlt : y * getMaskScanWidth w + x / 8 < getMaskScanWidth w * h := by
    omega
  have hb : 7 - x % 8 < 8 := by omega
  have hmj := hmain (y * getMaskScanWidth w + x / 8) hjlt (7 - x % 8) hb
  obtain ⟨hdivj, hmodj⟩ :=
    @row_decomp (getMaskScanWidth w) y (y * getMaskScanWidth w + x / 8)
      (by omega) (by omega)
  rw [hdivj, hmodj] at hmj
  have emod : y * getMaskScanWidth w + x / 8 - y * getMaskScanWidth w =
      x / 8 := by omega
  rw [emod] at hmj
  have ex : 8 * (x / 8) + (7 - (7 - x % 8)) = x := by
    have := Nat.div_add_mod x 8
    have : x % 8 < 8 := Nat.mod_lt _ (by norm_num)
    omega
  rw [ex] at hmj
  rw [hmj]
  simp [hx]

/-- A concrete 9×1 transposed BGRA buffer: pixels 0 and 8 fully transparent,
the rest solid; exercises both the full-group path and the trailing-byte path. -/
def maskWitnessData : List Nat :=
  [0, 0, 0, 0, 0, 0, 0, 255, 0, 0, 0, 255, 0, 0, 0, 255, 0, 0, 0, 255,
   0, 0, 0, 255, 0, 0, 0, 255, 0, 0, 0, 255, 0, 0, 0, 0]

/-- Closed witness for `createMask_spec` at width 9, height 1, threshold 1. -/
theorem createMask_spec_witness :
    maskWitnessData.length = 9 * 1 * 4 ∧
    ((createMask maskWitnessData 9 1 1).isSome = true ∧
    ((createMask maskWitnessData 9 1 1).getD []).length = getMaskScanWidth 9 * 1 ∧
    getMaskScanWidth 9 = (9 + 31) / 32 * 4 ∧
    (∀ j, j < getMaskScanWidth 9 * 1 → ∀ b, b < 8 →
      ((((createMask maskWitnessData 9 1 1).getD []).getD j 0).testBit b = true ↔
        (8 * (j % getMaskScanWidth 9) + (7 - b) < 9 ∧
          maskWitnessData.getD ((j / getMaskScanWidth 9 * 9 +
            (8 * (j % getMaskScanWidth 9) + (7 - b))) * 4 + 3) 0 < 1))) ∧
    (∀ y x, y < 1 → x < 9 →
      ((((createMask maskWitnessData 9 1 1).getD []).getD
          (y * getMaskScanWidth 9 + x / 8) 0).testBit (7 - x % 8) = true ↔
        maskWitnessData.getD ((y * 9 + x) * 4 + 3) 0 < 1))) :=
  ⟨by rfl, createMask_spec maskWitnessData 9 1 1 (by norm_num) (by norm_num)
    (by norm_num) (by norm_num) (by rfl)⟩

/-! ## Length of every block piece on success (towards C1) -/

theorem dibPixel_length {data buf out : List Nat} {pos wpos : Nat}
    (h : dibPixel data buf pos wpos = some out) : out.length = buf.length := by
  simp only [dibPixel] at h
  obtain ⟨r, hr, h⟩ := optBind_eq_some.mp h
  obtain ⟨g, hg, h⟩ := optBind_eq_some.mp h
  obtain ⟨b, hbb, h⟩ := optBind_eq_some.mp h
  obtain ⟨a, ha, h⟩ := optBind_eq_some.mp h
  obtain ⟨b1, hb1, h⟩ := optBind_eq_some.mp h
  obtain ⟨-, -, e1⟩ := writeU8v_eq_some hb1
  obtain ⟨b2, hb2, h⟩ := optBind_eq_some.mp h
  obtain ⟨-, -, e2⟩ := writeU8v_eq_some hb2
  obtain ⟨b3, hb3, h⟩ := optBind_eq_some.mp h
  obtain ⟨-, -, e3⟩ := writeU8v_eq_some hb3
  obtain ⟨b4, hb4, h⟩ := optBind_eq_some.mp h
  obtain ⟨-, -, e4⟩ := writeU8v_eq_some hb4
  have : out = b4 := by
    rw [← Option.some.injEq]
    exact h.symm
  subst this
  subst e4
  subst e3
  subst e2
  subst e1
  simp only [List.length_set]

theorem createDibCols_length {data : List Nat} {bpp row endR : Nat} :
    ∀ {n ci : Nat} {buf out : List Nat},
    createDibCols data bpp row endR n ci buf = some out → out.length = buf.length
  | 0, ci, buf, out, h => by
    simp only [createDibCols] at h
    exact congrArg List.length (Option.some.injEq _ _ ▸ h.symm :)
  | n + 1, ci, buf, out, h => by
    simp only [createDibCols] at h
    obtain ⟨b1, hp, h⟩ := optBind_eq_some.mp h
    exact (createDibCols_length h).trans (dibPixel_length hp)

theorem createDibRows_length {data : List Nat} {width bpp cols endR : Nat} :
    ∀ {n ri : Nat} {buf out : List Nat},
    createDibRows data width bpp cols endR n ri buf = some out →
    out.length = buf.length
  | 0, ri, buf, out, h => by
    simp only [createDibRows] at h
    exact congrArg List.length (Option.some.injEq _ _ ▸ h.symm :)
  | n + 1, ri, buf, out, h => by
    simp only [createDibRows] at h
    obtain ⟨b1, hc, h⟩ := optBind_eq_some.mp h
    exact (createDibRows_length h).trans (createDibCols_length hc)

theorem createDib_length {data out : List Nat} {w h bpp : Nat}
    (hd : createDib data w h bpp = some out) : out.length = data.length := by
  simp only [createDib] at hd
  have := createDibRows_length hd
  simpa [bufferAlloc] using this

theorem maskGroups_length {data : List Nat} {t : Nat} :
    ∀ {n srcPos dstPos : Nat} {buf : List Nat} {r : List Nat × Nat × Nat},
    maskGroups data t n srcPos dstPos buf = some r → r.1.length = buf.length
  | 0, srcPos, dstPos, buf, r, h => by
    simp only [maskGroups] at h
    have : r = (buf, srcPos, dstPos) := by
      rw [← Option.some.injEq]
      exact h.symm
    rw [this]
  | n + 1, srcPos, dstPos, buf, r, h => by
    simp only [maskGroups] at h
    obtain ⟨a0, h0, h⟩ := optBind_eq_some.mp h
    obtain ⟨a1, h1, h⟩ := optBind_eq_some.mp h
    obtain ⟨a2, h2, h⟩ := optBind_eq_some.mp h
    obtain ⟨a3, h3, h⟩ := optBind_eq_some.mp h
    obtain ⟨a4, h4, h⟩ := optBind_eq_some.mp h
    obtain ⟨a5, h5, h⟩ := optBind_eq_some.mp h
    obtain ⟨a6, h6, h⟩ := optBind_eq_some.mp h
    obtain ⟨a7, h7, h⟩ := optBind_eq_some.mp h
    obtain ⟨b1, hw, h⟩ := optBind_eq_some.mp h
    obtain ⟨-, -, e1⟩ := writeU8v_eq_some hw
    have := maskGroups_length h
    rw [this, e1]
    simp only [List.length_set]

theorem maskRow_length {data : List Nat} {t w sw y srcPos : Nat}
    {buf : List Nat} {r : List Nat × Nat}
    (h : maskRow data t w sw y srcPos buf = some r) : r.1.length = buf.length := by
  simp only [maskRow] at h
  obtain ⟨g, hg, h⟩ := optBind_eq_some.mp h
  have hgl := maskGroups_length hg
  by_cases hm : w % 8 = 0
  · rw [if_pos hm] at h
    have : r = (g.1, g.2.1) := by
      rw [← Option.some.injEq]
      exact h.symm
    rw [this]
    exact hgl
  · rw [if_neg hm] at h
    obtain ⟨m, hmm, h⟩ := optBind_eq_some.mp h
    obtain ⟨b1, hb1, h⟩ := optBind_eq_some.mp h
    obtain ⟨-, -, e1⟩ := writeU8v_eq_some hb1
    have : r = (b1, m.2) := by
      rw [← Option.some.injEq]
      exact h.symm
    rw [this, e1]
    simp only [List.length_set]
    exact hgl

theorem maskRowsLoop_length {data : List Nat} {t w sw : Nat} :
    ∀ {n y srcPos : Nat} {buf out : List Nat},
    maskRowsLoop data t w sw n y srcPos buf = some out → out.length = buf.length
  | 0, y, srcPos, buf, out, h => by
    simp only [maskRowsLoop] at h
    exact congrArg List.length (Option.some.injEq _ _ ▸ h.symm :)
  | n + 1, y, srcPos, buf, out, h => by
    simp only [maskRowsLoop] at h
    obtain ⟨r, hr, h⟩ := optBind_eq_some.mp h
    exact (maskRowsLoop_length h).trans (maskRow_length hr)

theorem createMask_length {data out : List Nat} {w h t : Nat}
    (hm : createMask data w h t = some out) :
    out.length = getMaskScanWidth w * h := by
  simp only [createMask] at hm
  have := maskRowsLoop_length hm
  simpa [bufferAlloc] using this

theorem createBitmap_length {x : Png} {c : Nat} {out : List Nat}
    (h : createBitmap x c = some out) : out.length = constants.bitmapSize := by
  simp only [createBitmap] at h
  obtain ⟨b1, h1, h⟩ := optBind_eq_some.mp h
  obtain ⟨-, -, e1⟩ := writeU32LE_eq_some h1
  obtain ⟨b2, h2, h⟩ := optBind_eq_some.mp h
  obtain ⟨-, -, e2⟩ := writeI32LE_eq_some h2
  obtain ⟨b3, h3, h⟩ := optBind_eq_some.mp h
  obtain ⟨-, -, e3⟩ := writeI32LE_eq_some h3
  obtain ⟨b4, h4, h⟩ := optBind_eq_some.mp h
  obtain ⟨-, -, e4⟩ := writeU16LE_eq_some h4
  obtain ⟨b5, h5, h⟩ := optBind_eq_some.mp h
  obtain ⟨-, -, e5⟩ := writeU16LE_eq_some h5
  obtain ⟨b6, h6, h⟩ := optBind_eq_some.mp h
  obtain ⟨-, -, e6⟩ := writeU32LE_eq_some h6
  obtain ⟨b7, h7, h⟩ := optBind_eq_some.mp h
  obtain ⟨-, -, e7⟩ := writeU32LE_eq_some h7
  obtain ⟨b8, h8, h⟩ := optBind_eq_some.mp h
  obtain ⟨-, -, e8⟩ := writeI32LE_eq_some h8
  obtain ⟨b9, h9, h⟩ := optBind_eq_some.mp h
  obtain ⟨-, -, e9⟩ := writeI32LE_eq_some h9
  obtain ⟨b10, h10, h⟩ := optBind_eq_some.mp h
  obtain ⟨-, -, e10⟩ := writeU32LE_eq_some h10
  obtain ⟨b11, h11, h⟩ := optBind_eq_some.mp h
  obtain ⟨-, -, e11⟩ := writeU32LE_eq_some h11
  have : out = b11 := by
    rw [← Option.some.injEq]
    exact h.symm
  subst this
  subst e11
  subst e10
  subst e9
  subst e8
  subst e7
  subst e6
  subst e5
  subst e4
  subst e3
  subst e2
  subst e1
  simp [bufferAlloc, constants]

theorem icoDirLoop_lengths : ∀ (imgs : List Png) (off : Nat)
    (dirs : List (List Nat)), icoDirLoop imgs off = some dirs →
    dirs.length = imgs.length ∧ ∀ d ∈ dirs, d.length = constants.directorySize
  | [], off, dirs, h => by
    simp only [icoDirLoop] at h
    have : dirs = [] := (Option.some.injEq _ _ ▸ h).symm
    subst this
    exact ⟨rfl, by simp⟩
  | x :: xs, off, dirs, h => by
    simp only [icoDirLoop] at h
    obtain ⟨dir, hdir, h⟩ := optBind_eq_some.mp h
    obtain ⟨rest, hrest, h⟩ := optBind_eq_some.mp h
    have : dirs = dir.1 :: rest := (Option.some.injEq _ _ ▸ h).symm
    subst this
    obtain ⟨ihlen, ihmem⟩ := icoDirLoop_lengths xs _ rest hrest
    obtain ⟨-, hdl, -, -⟩ := createDirectory_reads hdir
    refine ⟨by simp [ihlen], ?_⟩
    intro d hd
    rcases List.mem_cons.mp hd with hd | hd
    · rw [hd]
      exact hdl
    · exact ihmem d hd

theorem icoBlockLoop_spec : ∀ (xs : List Png) (bs : List (List Nat)),
    icoBlockLoop xs = some bs →
    ∃ gs : List (List Nat), bs.flatten = gs.flatten ∧ gs.length = xs.length ∧
      (∀ i, i < gs.length → (gs.getD i []).length =
        constants.bitmapSize + (xs.getD i ⟨0, 0, 0, []⟩).data.length +
          maskLen (xs.getD i ⟨0, 0, 0, []⟩)) ∧
      gs.flatten.length = (xs.map fun x =>
        constants.bitmapSize + x.data.length + maskLen x).sum
  | [], bs, h => by
    simp only [icoBlockLoop] at h
    have : bs = [] := (Option.some.injEq _ _ ▸ h).symm
    subst this
    exact ⟨[], rfl, rfl, by simp, by simp⟩
  | x :: xs, bs, h => by
    simp only [icoBlockLoop] at h
    obtain ⟨header, hh, h⟩ := optBind_eq_some.mp h
    obtain ⟨dib, hd, h⟩ := optBind_eq_some.mp h
    have hstep : ∃ mask : List Nat, mask.length = maskLen x ∧
        (icoBlockLoop xs >>= fun rest => pure (header :: dib :: mask :: rest)) =
          some bs := by
      by_cases hb4 : x.bpp = 4
      · rw [if_pos hb4] at h
        obtain ⟨mask, hm, h⟩ := optBind_eq_some.mp h
        exact ⟨mask, by rw [createMask_length hm, maskLen, if_pos hb4], h⟩
      · rw [if_neg hb4] at h
        obtain ⟨mask, hm, h⟩ := optBind_eq_some.mp h
        have hmeq : mask = bufferAlloc 0 := (Option.some.injEq _ _ ▸ hm).symm
        refine ⟨mask, ?_, h⟩
        rw [hmeq, maskLen, if_neg hb4]
        rfl
    obtain ⟨mask, hml, h⟩ := hstep
    obtain ⟨rest, hrest, h⟩ := optBind_eq_some.mp h
    have : bs = header :: dib :: mask :: rest := (Option.some.injEq _ _ ▸ h).symm
    subst this
    obtain ⟨gs, ihfl, ihlen, ihmem, ihsum⟩ := icoBlockLoop_spec xs rest hrest
    have hhl : header.length = constants.bitmapSize := createBitmap_length hh
    have hdl : dib.length = x.data.length := createDib_length hd
    refine ⟨(header ++ dib ++ mask) :: gs, ?_, by simp [ihlen], ?_, ?_⟩
    · simp only [List.flatten_cons, ihfl, List.append_assoc]
    · intro i hi
      match i with
      | 0 =>
        show (header ++ dib ++ mask).length = _
        simp [hhl, hdl, hml, Nat.add_assoc]
      | i + 1 =>
        have := ihmem i (by simpa using hi)
        simpa using this
    · simp only [List.flatten_cons, List.map_cons, List.sum_cons,
        List.length_append, ihsum, hhl, hdl, hml]

theorem flatten_length_const {ds : List (List Nat)} {c : Nat}
    (h : ∀ d ∈ ds, d.length = c) : ds.flatten.length = c * ds.length := by
  induction ds with
  | nil => simp
  | cons d ds ih =>
    rw [List.flatten_cons, List.length_append, h d (List.mem_cons_self d ds),
      ih (fun e he => h e (List.mem_cons_of_mem d he)), List.length_cons,
      Nat.mul_succ]
    omega

theorem bufferConcat_flatten (arr : List (List Nat)) :
    bufferConcat arr ((arr.map List.length).sum) = arr.flatten := by
  rw [bufferConcat]
  have he : (arr.map List.length).sum = arr.flatten.length :=
    (List.length_flatten arr).symm
  rw [he, List.take_left]

/-- C1: a successful encode is exactly the 6-byte header, then one 16-byte
directory entry per image in input order, then one image block per image in
the same order, each block of length `40 + pixelArrayLen + maskLen`; the
total length is `6 + 16*N + Σ (40 + pixelArrayLen_i + maskLen_i)`.  For
`N = 0` the output is exactly the 6-byte header (see the witness). -/
theorem generateIco_layout (imgs : List Png) (out : List Nat)
    (h : generateIco imgs = some out) :
    ∃ dirs blocks : List (List Nat),
      out = headerBytes imgs.length ++ dirs.flatten ++ blocks.flatten ∧
      (headerBytes imgs.length).length = constants.headerSize ∧
      dirs.length = imgs.length ∧
      (∀ d ∈ dirs, d.length = constants.directorySize) ∧
      blocks.length = imgs.length ∧
      (∀ i, i < blocks.length → (blocks.getD i []).length =
        constants.bitmapSize + (imgs.getD i ⟨0, 0, 0, []⟩).data.length +
          maskLen (imgs.getD i ⟨0, 0, 0, []⟩)) ∧
      out.length = constants.headerSize + constants.directorySize * imgs.length +
        (imgs.map fun x =>
          constants.bitmapSize + x.data.length + maskLen x).sum := by
  simp only [generateIco] at h
  obtain ⟨header, hh, h⟩ := optBind_eq_some.mp h
  obtain ⟨dirs, hd, h⟩ := optBind_eq_some.mp h
  obtain ⟨blocks, hb, h⟩ := optBind_eq_some.mp h
  obtain ⟨hn65, hheq⟩ := createHeader_eq_some hh
  subst hheq
  obtain ⟨hdlen, hdmem⟩ := icoDirLoop_lengths imgs _ dirs hd
  obtain ⟨gs, hgfl, hglen, hgmem, hgsum⟩ := icoBlockLoop_spec imgs blocks hb
  have hout : out = bufferConcat (headerBytes imgs.length :: (dirs ++ blocks))
      ((List.map List.length (headerBytes imgs.length :: (dirs ++ blocks))).sum) :=
    (Option.some.injEq _ _ ▸ h).symm
  rw [bufferConcat_flatten] at hout
  have hsplit : (headerBytes imgs.length :: (dirs ++ blocks)).flatten =
      headerBytes imgs.length ++ (dirs.flatten ++ blocks.flatten) := by
    rw [List.flatten_cons, List.flatten_append]
  rw [hsplit] at hout
  have hdfl : dirs.flatten.length = constants.directorySize * imgs.length := by
    rw [flatten_length_const hdmem, hdlen]
  refine ⟨dirs, gs, ?_, rfl, hdlen, hdmem, hglen, hgmem, ?_⟩
  · rw [hout, hgfl, List.append_assoc]
  · rw [hout]
    simp only [List.length_append, hgfl]
    have hhl : (headerBytes imgs.length).length = constants.headerSize := rfl
    omega

/-- Closed witness for `generateIco_layout`: the empty image list encodes to
exactly the 6-byte header `00 00 01 00 00 00` and nothing else. -/
theorem generateIco_layout_witness :
    generateIco [] = some [0, 0, 1, 0, 0, 0] ∧
    (∃ dirs blocks : List (List Nat),
      [0, 0, 1, 0, 0, 0] =
        headerBytes ([] : List Png).length ++ dirs.flatten ++ blocks.flatten ∧
      (headerBytes ([] : List Png).length).length = constants.headerSize ∧
      dirs.length = ([] : List Png).length ∧
      (∀ d ∈ dirs, d.length = constants.directorySize) ∧
      blocks.length = ([] : List Png).length ∧
      (∀ i, i < blocks.length → (blocks.getD i []).length =
        constants.bitmapSize +
          (([] : List Png).getD i ⟨0, 0, 0, []⟩).data.length +
          maskLen (([] : List Png).getD i ⟨0, 0, 0, []⟩)) ∧
      ([0, 0, 1, 0, 0, 0] : List Nat).length =
        constants.headerSize + constants.directorySize * ([] : List Png).length +
        (([] : List Png).map fun x =>
          constants.bitmapSize + x.data.length + maskLen x).sum) :=
  ⟨by decide, generateIco_layout [] [0, 0, 1, 0, 0, 0] (by decide)⟩

/-! ## C9: the mask threshold is the literal 1, not configuration -/

/-- C9 (counterexample): with a caller-supplied `maskThreshold` of 5 and a
pixel of alpha 1, the claim demands mask bit `alpha < 5 = true`, but the
encoder's only mask byte (file offset 66 of the 70-byte output) has bit 7
clear: the option is never consulted and the comparison is against the
constant 1. -/
theorem maskThreshold_not_consulted_cex :
    (toIco (fun _ : Nat => (⟨1, 1, 4, [10, 20, 30, 1]⟩ : Png)) (fun _ => 1)
      (fun x _ => x) [0] ⟨false, defaultSizes, some 5⟩).isSome = true ∧
    (((toIco (fun _ : Nat => (⟨1, 1, 4, [10, 20, 30, 1]⟩ : Png)) (fun _ => 1)
      (fun x _ => x) [0] ⟨false, defaultSizes, some 5⟩).getD []).getD 66 0).testBit 7
      = false ∧
    (1 : Nat) < 5 :=
  ⟨by decide, by decide, by decide⟩

/-- C9 (amended): the mask threshold is the fixed literal 1 — the entry
point's output does not depend on any caller-supplied `maskThreshold`
option, and the threshold-1 boundary is observable: an alpha-0 pixel sets
its mask bit, an alpha-1 pixel does not. -/
theorem maskThreshold_fixed_one :
    (∀ (p : Nat → Png) (sz : Nat → Nat) (rf : Nat → Nat → Nat)
      (input : List Nat) (r : Bool) (sizes : List Nat) (t1 t2 : Option Nat),
      toIco p sz rf input ⟨r, sizes, t1⟩ = toIco p sz rf input ⟨r, sizes, t2⟩) ∧
    ((generateIco [⟨1, 1, 4, [9, 9, 9, 0]⟩]).getD []).getD 66 0 = 128 ∧
    ((generateIco [⟨1, 1, 4, [9, 9, 9, 1]⟩]).getD []).getD 66 0 = 0 :=
  ⟨fun _ _ _ _ _ _ _ _ => rfl, by decide, by decide⟩

/-! ## C10: resize source selection -/

theorem pickWidest_fold {α : Type} :
    ∀ (items : List (α × Nat)) (a : α × Nat),
    ∃ r, List.foldl (fun acc (b : α × Nat) => match acc with
        | none => some b
        | some c => if c.2 > b.2 then some c else some b) (some a) items =
          some r ∧
      (r ∈ items ∨ r = a) ∧ (∀ q ∈ items, q.2 ≤ r.2) ∧ a.2 ≤ r.2
  | [], a => ⟨a, rfl, Or.inr rfl, by simp, Nat.le_refl _⟩
  | b :: items, a => by
    simp only [List.foldl_cons]
    by_cases hab : a.2 > b.2
    · rw [if_pos hab]
      obtain ⟨r, hr, hmem, hmax, hle⟩ := pickWidest_fold items a
      refine ⟨r, hr, ?_, ?_, hle⟩
      · rcases hmem with hm | hm
        · exact Or.inl (List.mem_cons_of_mem b hm)
        · exact Or.inr hm
      · intro q hq
        rcases List.mem_cons.mp hq with hq | hq
        · rw [hq]
          omega
        · exact hmax q hq
    · rw [if_neg hab]
      obtain ⟨r, hr, hmem, hmax, hle⟩ := pickWidest_fold items b
      refine ⟨r, hr, ?_, ?_, by omega⟩
      · rcases hmem with hm | hm
        · exact Or.inl (List.mem_cons_of_mem b hm)
        · rw [hm]
          exact Or.inl (List.mem_cons_self b items)
      · intro q hq
        rcases List.mem_cons.mp hq with hq | hq
        · rw [hq]
          exact hle
        · exact hmax q hq

theorem pickWidest_spec {α : Type} (items : List (α × Nat)) (hne : items ≠ []) :
    ∃ r, pickWidest items = some r ∧ r ∈ items ∧ ∀ q ∈ items, q.2 ≤ r.2 := by
  match items, hne with
  | b :: items, _ =>
    rw [pickWidest]
    simp only [List.foldl_cons]
    obtain ⟨r, hr, hmem, hmax, hle⟩ := pickWidest_fold items b
    refine ⟨r, hr, ?_, ?_⟩
    · rcases hmem with hm | hm
      · exact List.mem_cons_of_mem b hm
      · rw [hm]
        exact List.mem_cons_self b items
    · intro q hq
      rcases List.mem_cons.mp hq with hq | hq
      · rw [hq]
        exact hle
      · exact hmax q hq

/-- C10: with resize enabled, the single input of greatest width (the last
such, on ties) is the only resize source; candidate sizes strictly above
its width are dropped, so the number of images handed to the encoder is the
number of candidate sizes not exceeding the widest input's width — possibly
zero. -/
theorem resizeImages_widest {α : Type} (sz : α → Nat) (rf : α → Nat → α)
    (data : List α) (sizes : List Nat) (hne : data ≠ []) :
    ∃ b, b ∈ data ∧ (∀ a ∈ data, sz a ≤ sz b) ∧
      resizeImages sz rf data sizes =
        (sizes.filter fun s => s ≤ sz b).map (rf b) ∧
      (resizeImages sz rf data sizes).length =
        (sizes.filter fun s => s ≤ sz b).length ∧
      (∀ (p : α → Png) (mt : Option Nat),
        toIco p sz rf data ⟨true, sizes, mt⟩ =
          generateIco ((((sizes.filter fun s => s ≤ sz b).map (rf b))).map p)) := by
  obtain ⟨r, hr, hmem, hmax⟩ :=
    pickWidest_spec (data.map fun x => (x, sz x)) (by simpa using hne)
  obtain ⟨b, hbmem, hbeq⟩ := List.mem_map.mp hmem
  have hres : resizeImages sz rf data sizes =
      (sizes.filter fun s => s ≤ sz b).map (rf b) := by
    rw [resizeImages, hr, ← hbeq]
  refine ⟨b, hbmem, ?_, hres, by rw [hres, List.length_map], ?_⟩
  · intro a ha
    have := hmax (a, sz a) (List.mem_map_of_mem _ ha)
    rw [← hbeq] at this
    exact this
  · intro p mt
    rw [toIco, if_pos rfl, generateIcoRaw, hres]

/-- Closed witness for `resizeImages_widest`: inputs of widths 1, 3, 2 and
candidate sizes 1..4; the width-3 input is the source and size 4 is
dropped. -/
theorem resizeImages_widest_witness :
    ([1, 3, 2] : List Nat) ≠ [] ∧
    (∃ b, b ∈ ([1, 3, 2] : List Nat) ∧
      (∀ a ∈ ([1, 3, 2] : List Nat), id a ≤ id b) ∧
      resizeImages id (fun a s => a * 1000 + s) [1, 3, 2] [1, 2, 3, 4] =
        (([1, 2, 3, 4] : List Nat).filter fun s => s ≤ id b).map
          (fun s => b * 1000 + s) ∧
      (resizeImages id (fun a s => a * 1000 + s) [1, 3, 2] [1, 2, 3, 4]).length =
        (([1, 2, 3, 4] : List Nat).filter fun s => s ≤ id b).length ∧
      (∀ (p : Nat → Png) (mt : Option Nat),
        toIco p id (fun a s => a * 1000 + s) [1, 3, 2] ⟨true, [1, 2, 3, 4], mt⟩ =
          generateIco (((([1, 2, 3, 4] : List Nat).filter fun s => s ≤ id b).map
            (fun s => b * 1000 + s)).map p))) :=
  ⟨by decide, resizeImages_widest id (fun a s => a * 1000 + s) [1, 3, 2]
    [1, 2, 3, 4] (by decide)⟩

end ToIco
